import Mathlib

/-!
Verification of the DLP_app DMD driver core
===========================================

A shallow embedding, in Lean 4, of the pattern codec
(`src/drivers/dlp_compression.py`) and of the DLPC900 command layer
(`src/drivers/dlp_driver.py`) of the DLP_app repository, together with
theorems settling the behavioural claims about them.

Conventions of the embedding:

* numpy `uint8` 3×H×W images are represented row-major as `List Row`, where a
  `Row` is a list of `(r, g, b)` pixel triples (`RGB`); 2-D binary patterns
  are `Mat = List (List Nat)`.
* Python functions that can `raise` are modelled as `Except String α`;
  the decoder, whose only abnormal exits are raised exceptions, returns
  `Option` (`none` = a Python exception).
* Python `while` loops over a byte cursor are modelled as recursion over the
  list of not-yet-consumed bytes; slicing a numpy array is `take`/`drop`.
-/

/-- One RGB pixel (each component a `uint8` value). -/
abbrev RGB := Nat × Nat × Nat

/-- One image row: the pixels `pattern[:, ii, :]` of a 3×H×W uint8 array. -/
abbrev Row := List RGB

/-- A 2-D array of numbers (one binary DMD pattern, H rows of W entries). -/
abbrev Mat := List (List Nat)

/-- numpy slice assignment `line[pos : pos + seg.length] = seg` on a row.
When `pos + seg.length ≤ line.length` (the only situation produced by the
decoder loop below) this is exactly numpy's in-place overwrite. -/
def writeSeg (line : Row) (pos : Nat) (seg : Row) : Row :=
  line.take pos ++ seg ++ line.drop (pos + seg.length)

/-- `np.zeros((3, W))` as a row of W black pixels. -/
def blankLine (W : Nat) : Row := List.replicate W (0, 0, 0)

/-- `erle_len2bytes` (dlp_compression.py:258): encode a length 0..2^15−1 as
one byte (`length < 128`) or two bytes `[(length & 0x7F) | 0x80, length >> 7]`;
raises `ValueError` outside that range. -/
def erle_len2bytes (length : Nat) : Except String (List Nat) :=
  if length > 2 ^ 15 - 1 then
    Except.error "length is negative or too large to be encoded."
  else if length < 128 then
    Except.ok [length]
  else
    Except.ok [(length &&& 0x7F) ||| 0x80, length >>> 7]

/-- `erle_bytes2len` (dlp_compression.py:285): decode a 1- or 2-byte
little-endian length, `(msb << 7) + (lsb - 0x80)` for the 2-byte form.
The Python original raises when asked to unpack a list of length other than
1 or 2, and returns a negative length when `lsb < 0x80`; every call site in
the source guards with `lsb ≥ 0x80` and passes slices of length 1 or 2, where
this total function agrees with it. -/
def erle_bytes2len (byte_list : List Nat) : Nat :=
  if byte_list.length = 1 then byte_list.headD 0
  else
    match byte_list with
    | lsb :: msb :: _ => (msb <<< 7) + (lsb - 0x80)
    | _ => 0

/-- The maximal runs of equal pixels of one row, as `(value, run length)`
pairs in left-to-right order.  In the source (dlp_compression.py:104-108) the
runs are obtained from the change positions
`np.where(np.sum(np.abs(np.diff(row_rgb, axis=1)), axis=0) != 0)`:
a position marks a change exactly when the RGB triple differs from its left
neighbour, so the emitted `(row_rgb[:, jj], run_lens)` pairs are precisely the
maximal runs computed here. -/
def rowRuns : Row → List (RGB × Nat)
  | [] => []
  | v :: rest =>
    match rowRuns rest with
    | [] => [(v, 1)]
    | (w, n) :: tail => if v = w then (w, n + 1) :: tail else (v, 1) :: (w, n) :: tail

/-- Concatenation of the runs back into a row. -/
def runsFlatten (runs : List (RGB × Nat)) : Row :=
  (runs.map fun p => List.replicate p.2 p.1).flatten

/-- Total number of pixels covered by a run list. -/
def sumLens (runs : List (RGB × Nat)) : Nat :=
  (runs.map fun p => p.2).sum

/-- The bytes the ERLE encoder emits for one run: the length encoding
followed by the three colour bytes (pure form, valid for `l ≤ 32767`). -/
def erleRunBytes (v : RGB) (l : Nat) : List Nat :=
  (if l < 128 then [l] else [l % 128 + 128, l / 128]) ++ [v.1, v.2.1, v.2.2]

/-- Pure form of an ERLE-encoded run list. -/
def erleRunsBytes (runs : List (RGB × Nat)) : List Nat :=
  (runs.map fun p => erleRunBytes p.1 p.2).flatten

/-- The run-emission loop of `encode_erle` (dlp_compression.py:110-113):
for each run, `erle_len2bytes(rlen) + [v[0], v[1], v[2]]`. -/
def encodeRunsErle : List (RGB × Nat) → Except String (List Nat)
  | [] => Except.ok []
  | (v, l) :: rest => do
    let lb ← erle_len2bytes l
    let tl ← encodeRunsErle rest
    Except.ok (lb ++ [v.1, v.2.1, v.2.2] ++ tl)

/-- The body of `encode_erle`'s row loop (dlp_compression.py:97-113).
`W` is `nx = pattern.shape[2]`; `prev` is the previous row (`none` for
`ii = 0`).  A repeated row emits `[0x00, 0x01, msb, lsb]` where
`msb, lsb = erle_len2bytes(nx)` — a Python tuple unpacking that raises
`ValueError` when `erle_len2bytes` returns a single byte (`nx < 128`).
An empty row makes the run loop index `row_rgb[:, 0]` out of bounds. -/
def encodeRowValueErle : Row → Except String (List Nat)
  | [] => Except.error "index 0 is out of bounds for axis 1 with size 0"
  | row => encodeRunsErle (rowRuns row)

/-- The row-copy branch common to both encoders: `msb, lsb =
erle_len2bytes(nx)` followed by `[0x00, 0x01, msb, lsb]`; the tuple
unpacking raises when `erle_len2bytes` returns a single byte. -/
def encodeRowCopy (W : Nat) : Except String (List Nat) := do
  match ← erle_len2bytes W with
  | [a, b] => Except.ok [0x00, 0x01, a, b]
  | _ => Except.error "cannot unpack erle_len2bytes result into msb, lsb"

def encodeRowErle (W : Nat) (prev : Option Row) (row : Row) : Except String (List Nat) :=
  if prev = some row then encodeRowCopy W
  else encodeRowValueErle row

/-- The row loop of `encode_erle`, threading the previous row. -/
def encodeRowsErle (W : Nat) (prev : Option Row) : List Row → Except String (List Nat)
  | [] => Except.ok []
  | r :: rs => do
    let hd ← encodeRowErle W prev r
    let tl ← encodeRowsErle W (some r) rs
    Except.ok (hd ++ tl)

/-- `encode_erle` (dlp_compression.py:68): encode a 3×H×W uint8 pattern in
enhanced run-length encoding and append the `[0x00, 0x01, 0x00]` terminator.
`W` is the width `pattern.shape[2]` of the numpy array. -/
def encode_erle (W : Nat) (pattern : List Row) : Except String (List Nat) := do
  let body ← encodeRowsErle W none pattern
  Except.ok (body ++ [0x00, 0x01, 0x00])

/-- The chunk lengths produced by the RLE 255-chunking loop
(dlp_compression.py:163-171): `rlen ≤ 255` gives the single chunk `[rlen]`,
otherwise the while loop emits `⌈rlen/255⌉` chunks, each of 255 pixels except
a final remainder chunk (closed form of that loop). -/
def rleChunkLens (rlen : Nat) : List Nat :=
  if rlen ≤ 255 then [rlen]
  else
    let count := (rlen + 254) / 255
    List.replicate (count - 1) 255 ++ [rlen - 255 * (count - 1)]

/-- The bytes the RLE encoder emits for one run: `[L, r, g, b]` per chunk. -/
def rleRunBytes (v : RGB) (l : Nat) : List Nat :=
  (rleChunkLens l).flatMap fun c => [c, v.1, v.2.1, v.2.2]

/-- The body of `encode_rle`'s row loop (dlp_compression.py:148-171); the
repeated-row branch is byte-for-byte the one of `encode_erle`, including the
failing tuple unpacking for widths below 128. -/
def encodeRowValueRle : Row → Except String (List Nat)
  | [] => Except.error "index 0 is out of bounds for axis 1 with size 0"
  | row => Except.ok ((rowRuns row).flatMap fun p => rleRunBytes p.1 p.2)

def encodeRowRle (W : Nat) (prev : Option Row) (row : Row) : Except String (List Nat) :=
  if prev = some row then encodeRowCopy W
  else encodeRowValueRle row

/-- The row loop of `encode_rle`. -/
def encodeRowsRle (W : Nat) (prev : Option Row) : List Row → Except String (List Nat)
  | [] => Except.ok []
  | r :: rs => do
    let hd ← encodeRowRle W prev r
    let tl ← encodeRowsRle W (some r) rs
    Except.ok (hd ++ tl)

/-- `encode_rle` (dlp_compression.py:120): run-length encode a 3×H×W uint8
pattern and append the single `0x00` terminator byte. -/
def encode_rle (W : Nat) (pattern : List Row) : Except String (List Nat) := do
  let body ← encodeRowsRle W none pattern
  Except.ok (body ++ [0x00])

/-- Group a flat byte list into successive `(r, g, b)` triples (the read
pattern of the uncompressed-pixel loop, dlp_compression.py:232-235). -/
def toTriples : List Nat → Row
  | a :: b :: c :: rest => (a, b, c) :: toTriples rest
  | _ => []

/-- The `while ii < len(pattern_bytes)` loop of `decode_erle`
(dlp_compression.py:193-253), recursing on the not-yet-consumed bytes, with a
structural fuel argument: every iteration consumes at least one byte, so fuel
`pattern_bytes.length + 1` (supplied by `decode_erle`) can never run out.

State per iteration: `lineNo`/`linePos` (`line_no`, `line_pos`), the
`currentLine` buffer and the accumulated `rgbPattern` rows.  Each iteration
first flushes a full line (`line_pos == W`) or raises on an over-full one,
then dispatches on the control bytes.  Cases returning `none` are the
Python `raise`s / `IndexError`s:
* a final byte other than `0x00`;
* a truncated stream (indexing past the end);
* a repeat block or uncompressed block overflowing the line, which numpy
  rejects as a broadcast mismatch (a row copy that overflows and would only
  raise on a later iteration is also mapped to `none`);
* a row copy with no previous row in `rgb_pattern`.
The row-copy source `rgb_pattern[:, line_no - 1]` is Python indexing: for
`line_no = 0` it wraps to the *last* accumulated row (and raises when there
is none). -/
def decodeLoop (W : Nat) : Nat → List Nat → Nat → Nat → Row → List Row → Option (List Row)
  | 0, _, _, _, _, _ => none
  | _ + 1, [], _, _, _, rgbPattern => some rgbPattern
  | fuel + 1, b :: rest, lineNo, linePos, currentLine, rgbPattern =>
    if linePos > W then none
    else
      let ln := if linePos = W then lineNo + 1 else lineNo
      let cl := if linePos = W then blankLine W else currentLine
      let acc := if linePos = W then rgbPattern ++ [currentLine] else rgbPattern
      let lp := if linePos = W then 0 else linePos
      match rest with
      | [] => if b = 0 then some acc else none
      | b2 :: rest2 =>
        if b = 0 then
          if b2 = 0 then
            decodeLoop W fuel (b2 :: rest2) ln lp cl acc
          else if b2 = 1 then
            match rest2 with
            | [] => none
            | c :: rest3 =>
              let nToCopy := if c < 128 then c else erle_bytes2len (c :: rest3.take 1)
              let rem := if c < 128 then rest3 else rest3.drop 1
              match (if ln = 0 then acc.getLast? else acc[ln - 1]?) with
              | none => none
              | some prevRow =>
                if lp + nToCopy ≤ W then
                  decodeLoop W fuel rem ln (lp + nToCopy)
                    (writeSeg cl lp ((prevRow.drop lp).take nToCopy)) acc
                else none
          else
            let n := if b2 < 128 then b2 else erle_bytes2len (b2 :: rest2.take 1)
            let rem := if b2 < 128 then rest2 else rest2.drop 1
            if 3 * n ≤ rem.length ∧ lp + n ≤ W then
              decodeLoop W fuel (rem.drop (3 * n)) ln (lp + n)
                (writeSeg cl lp (toTriples (rem.take (3 * n)))) acc
            else none
        else
          if b < 128 then
            match rest2 with
            | g :: bl :: rem2 =>
              if lp + b ≤ W then
                decodeLoop W fuel rem2 ln (lp + b)
                  (writeSeg cl lp (List.replicate b (b2, g, bl))) acc
              else none
            | _ => none
          else
            match rest2 with
            | r :: g :: bl :: rem2 =>
              let L := erle_bytes2len [b, b2]
              if lp + L ≤ W then
                decodeLoop W fuel rem2 ln (lp + L)
                  (writeSeg cl lp (List.replicate L (r, g, bl))) acc
              else none
            | _ => none

/-- `decode_erle` (dlp_compression.py:178): decode an ERLE- or RLE-encoded
byte stream against a target `dmd_size = (ny, nx)`.  Only `nx` is consulted
(as the line width); rows are accumulated until the stream ends. -/
def decode_erle (dmd_size : Nat × Nat) (pattern_bytes : List Nat) : Option (List Row) :=
  decodeLoop dmd_size.2 (pattern_bytes.length + 1) pattern_bytes 0 0 (blankLine dmd_size.2) []

/-! ## 24-plane combine / split (dlp_compression.py:11-65) -/

/-- Read entry `m[y][x]` of a 2-D pattern, 0 outside (the zero bits that
missing tail patterns contribute). -/
def mat_get (m : Mat) (y x : Nat) : Nat := (m.getD y []).getD x 0

/-- One colour plane of a combined frame at pixel `(y, x)`:
`sum over ii in [0,8) of patterns[off + ii][y][x] * 2^ii` — the accumulation
loop of `combine_patterns` (dlp_compression.py:34-40), with plane offsets
16 (R), 8 (G) and 0 (B) into the current block of up to 24 patterns. -/
def combine_plane (block : List Mat) (off y x : Nat) : Nat :=
  ((List.range 8).map fun i => mat_get (block.getD (off + i) []) y x * 2 ^ i).sum

/-- One combined 3×H×W frame built from a block of up to 24 binary patterns. -/
def combineBlock (H W : Nat) (block : List Mat) : List Row :=
  (List.range H).map fun y =>
    (List.range W).map fun x =>
      (combine_plane block 16 y x, combine_plane block 8 y x, combine_plane block 0 y x)

/-- `combine_patterns` (dlp_compression.py:11): pack N binary H×W patterns
into `⌈N/24⌉` combined RGB frames (`n_combined_patterns = ceil(len/24)`,
block k covering `patterns[24k : 24k+24]`).  Raises for `bit_depth ≠ 1` and
for non-binary input. -/
def combine_patterns (H W : Nat) (patterns : List Mat) (bit_depth : Nat) :
    Except String (List (List Row)) :=
  if bit_depth ≠ 1 then Except.error "not implemented"
  else if ¬ (patterns.all fun m => m.all fun row => row.all fun v => v = 0 ∨ v = 1) then
    Except.error "patterns must be binary"
  else
    Except.ok ((List.range ((patterns.length + 23) / 24)).map fun k =>
      combineBlock H W ((patterns.drop (24 * k)).take 24))

/-- `split_combined_patterns` (dlp_compression.py:47): split one combined
3×H×W frame back into 24 binary patterns.  The source masks and shifts each
plane; note the R plane (`ii ∈ [16,24)`) shifts right by `ii + 8` — i.e. by
24..31 — which always produces 0 for a masked uint8 value. -/
def split_combined_patterns (H W : Nat) (combined : List Row) : List Mat :=
  (List.range 24).map fun ii =>
    (List.range H).map fun y =>
      (List.range W).map fun x =>
        let px := ((combined.getD y []).getD x (0, 0, 0))
        if ii < 8 then (px.2.2 &&& 2 ^ ii) >>> ii
        else if ii < 16 then (px.2.1 &&& 2 ^ (ii - 8)) >>> (ii - 8)
        else (px.1 &&& 2 ^ (ii - 16)) >>> (ii + 8)

/-! ## DLPC900 command layer (dlp_driver.py)

Every typed wrapper of the controller façade ends in one
`send_command(rw_mode, reply, command, data, sequence_byte)` call; the trace
of a high-level operation is the ordered list of those calls.  Device replies
are consulted by the source only through `resp['error']`, which (when set)
triggers an extra `read_error_description` command; all claims below assume
error-free replies, so the traces contain no such extra commands. -/

/-- One `send_command` invocation (dlp_driver.py:329). -/
structure UsbCmd where
  rw_mode : String
  reply : Bool
  command : Nat
  data : List Nat
  sequence_byte : Nat
deriving Repr, DecidableEq

/-- `struct.pack('<H', n)` as a little-endian byte pair; `struct.error`
outside `0..65535`. -/
def pack_H (n : Nat) : Except String (List Nat) :=
  if n < 65536 then Except.ok [n % 256, n / 256]
  else Except.error "struct.error: argument out of range for H"

/-- `struct.pack('<I', n)` as four little-endian bytes; `struct.error`
outside `0..2^32-1`. -/
def pack_I (n : Nat) : Except String (List Nat) :=
  if n < 4294967296 then
    Except.ok [n % 256, n / 256 % 256, n / 65536 % 256, n / 16777216]
  else Except.error "struct.error: argument out of range for I"

/-- `send_command`'s construction of the raw buffer (dlp_driver.py:346-371):
flag byte (`'r'` → bit 7; reply → bit 6; remaining bits zero), sequence byte,
2-byte little-endian `len(data) + 2`, 2-byte little-endian opcode, payload. -/
def send_command_buffer (c : UsbCmd) : Except String (List Nat) := do
  let rwBit ←
    if c.rw_mode = "r" then Except.ok 128
    else if c.rw_mode = "w" then Except.ok 0
    else Except.error "flagstring should be r or w"
  let flag_byte := rwBit + (if c.reply then 64 else 0)
  let lenB ← pack_H (c.data.length + 2)
  let cmdB ← pack_H c.command
  Except.ok ([flag_byte, c.sequence_byte] ++ lenB ++ cmdB ++ c.data)

/-- `send_raw_command`'s packet loop (dlp_driver.py:312-327): the buffer is
cut into 64-byte packets (`data_counter` advancing by 64), the last one
zero-padded; packet k is `buffer[64k : 64k+64]` padded to 64 bytes. -/
def send_raw_packets (buffer : List Nat) : List (List Nat) :=
  (List.range ((buffer.length + 63) / 64)).map fun k =>
    let chunk := (buffer.drop (64 * k)).take 64
    chunk ++ List.replicate (64 - chunk.length) 0

/-- `pattern_modes` (dlp_driver.py:56). -/
def pattern_modes (mode : String) : Option Nat :=
  if mode = "video" then some 0x00
  else if mode = "pre-stored" then some 0x01
  else if mode = "video-pattern" then some 0x02
  else if mode = "on-the-fly" then some 0x03
  else none

/-- `compression_modes` (dlp_driver.py:62). -/
def compression_modes (mode : String) : Option Nat :=
  if mode = "none" then some 0x00
  else if mode = "rle" then some 0x01
  else if mode = "erle" then some 0x02
  else none

/-- `start_stop_sequence` (dlp_driver.py:690): PAT_START_STOP (0x1A24) with
data/sequence bytes start=(0x02, 0x08), stop=(0x00, 0x05), pause=(0x01, 0x00). -/
def start_stop_sequence (cmd : String) : Except String UsbCmd :=
  if cmd = "start" then Except.ok ⟨"w", false, 0x1A24, [0x02], 0x08⟩
  else if cmd = "stop" then Except.ok ⟨"w", false, 0x1A24, [0x00], 0x05⟩
  else if cmd = "pause" then Except.ok ⟨"w", false, 0x1A24, [0x01], 0x00⟩
  else Except.error "cmd must be start, stop, or pause"

/-- `set_pattern_mode` (dlp_driver.py:679): DISP_MODE (0x1A1B). -/
def set_pattern_mode (mode : String) : Except String UsbCmd :=
  match pattern_modes mode with
  | some c => Except.ok ⟨"w", true, 0x1A1B, [c], 0x00⟩
  | none => Except.error "unsupported pattern mode"

/-- `set_trigger_in1` (dlp_driver.py:635): rejects `delay_us < 104` with a
ValueError whose message demands at least `min_time_us = 105`, then sends
TRIG_IN1_CTL (0x1A35) with the 2-byte little-endian delay and an advance-edge
byte (rising=0x00, falling=0x01). -/
def set_trigger_in1 (delay_us : Nat) (edge_to_advance : String) : Except String UsbCmd := do
  if delay_us < 104 then
    Except.error "delay time must be 105us or longer."
  else
    let delay_byte ← pack_H delay_us
    let advance_byte ←
      if edge_to_advance = "rising" then Except.ok [0x00]
      else if edge_to_advance = "falling" then Except.ok [0x01]
      else Except.error "edge_to_advance must be rising or falling"
    Except.ok ⟨"w", true, 0x1A35, delay_byte ++ advance_byte, 0x00⟩

/-- `_pattern_display_lut_configuration` (dlp_driver.py:733): PAT_CONFIG
(0x1A31) carrying 2-byte `num_patterns` (≤ `max_lut_index = 511`) and 4-byte
`num_repeat`. -/
def pattern_display_lut_configuration (num_patterns num_repeat : Nat) :
    Except String UsbCmd := do
  if num_patterns > 511 then
    Except.error "num_patterns must be at most 511"
  else
    let np ← pack_H num_patterns
    let nr ← pack_I num_repeat
    Except.ok ⟨"w", true, 0x1A31, np ++ nr, 0x00⟩

/-- `_pattern_display_lut_definition` (dlp_driver.py:748): MBOX_DATA (0x1A34)
with a 12-byte payload: 2-byte sequence position, 3-byte exposure
(`pack('<I', exposure)[:-1]`), the misc byte, 2-byte dark time plus a zero
byte, the trigger-2 byte, the stored image index, and `8 *` the stored bit
index.  The misc byte is built as the character string
`clear ++ "000" ++ "100" ++ trigger`, reversed, and read as a base-2 numeral
(`int(s[::-1], 2)`); the fold below is that numeral, first character =
least significant bit. -/
def pattern_display_lut_definition (sequence_position_index : Nat)
    (exposure_time_us dark_time_us : Nat)
    (wait_for_trigger clear_pattern_after_trigger : Bool)
    (bit_depth : Nat) (disable_trig_2 : Bool)
    (stored_image_index stored_image_bit_index : Nat) :
    Except String UsbCmd := do
  let pattern_index_bytes ← pack_H sequence_position_index
  let exposure_bytes := (← pack_I exposure_time_us).take 3
  if bit_depth ≠ 1 then
    Except.error "bit_depths other than 1 not implemented."
  else
    let misc_byte_str :=
      [if clear_pattern_after_trigger then 1 else 0] ++ [0, 0, 0] ++ [1, 0, 0] ++
        [if wait_for_trigger then 1 else 0]
    let misc_byte := misc_byte_str.reverse.foldl (fun a bit => 2 * a + bit) 0
    let dark_time_bytes := (← pack_H dark_time_us) ++ [0]
    let trig2_output_bytes := if disable_trig_2 then [0x00] else [0x01]
    Except.ok ⟨"w", true, 0x1A34,
      pattern_index_bytes ++ exposure_bytes ++ [misc_byte] ++ dark_time_bytes ++
        trig2_output_bytes ++ [stored_image_index] ++ [8 * stored_image_bit_index], 0x00⟩

/-- `_init_pattern_bmp_load` (dlp_driver.py:798): PATMEM_LOAD_INIT 0x1A2A
(primary) / 0x1A2C (secondary) with 2-byte pattern index and 4-byte length. -/
def init_pattern_bmp_load (pattern_length pattern_index : Nat) (primary_controller : Bool) :
    Except String UsbCmd := do
  let index_bin ← pack_H pattern_index
  let num_bytes ← pack_I pattern_length
  Except.ok ⟨"w", true, (if primary_controller then 0x1A2A else 0x1A2C),
    index_bin ++ num_bytes, 0x00⟩

/-- The ≤504-byte chunking loop of `_pattern_bmp_load` (dlp_driver.py:863-872):
chunk k is `data[504k : 504k+504]`, sent as PATMEM_LOAD_DATA 0x1A2B / 0x1A2D
prefixed with its own 2-byte length. -/
def bmpDataChunks (data : List Nat) (primary_controller : Bool) :
    Except String (List UsbCmd) :=
  (List.range ((data.length + 503) / 504)).mapM fun k => do
    let data_current := (data.drop (504 * k)).take 504
    let data_len_bytes ← pack_H data_current.length
    Except.ok (⟨"w", false, (if primary_controller then 0x1A2B else 0x1A2D),
      data_len_bytes ++ data_current, 0x00⟩ : UsbCmd)

/-- `_pattern_bmp_load` (dlp_driver.py:818): build the 48-byte header
(signature, width — halved on a dual-controller DMD —, height, encoded byte
count, reserved/background bytes, compression byte), prepend it to the
compressed pattern, then issue the init command followed by the ≤504-byte
data chunks. -/
def pattern_bmp_load (dual_controller : Bool) (dmd_width dmd_height : Nat)
    (compressed_pattern : List Nat) (compression_mode : String)
    (pattern_index : Nat) (primary_controller : Bool) :
    Except String (List UsbCmd) := do
  let width := if dual_controller then dmd_width / 2 else dmd_width
  let signature_bytes := [0x53, 0x70, 0x6C, 0x64]
  let width_byte ← pack_H width
  let height_byte ← pack_H dmd_height
  let num_encoded_bytes ← pack_I compressed_pattern.length
  let reserved_bytes := List.replicate 8 0xFF
  let bg_color_bytes := List.replicate 4 0x00
  let encoding_byte ←
    match compression_modes compression_mode with
    | some c => Except.ok [c]
    | none => Except.error "unsupported compression_mode"
  let general_data := signature_bytes ++ width_byte ++ height_byte ++ num_encoded_bytes ++
    reserved_bytes ++ bg_color_bytes ++ [0x01] ++ encoding_byte ++
    [0x01] ++ [0x00, 0x00] ++ [0x01] ++ List.replicate 18 0x00
  let data := general_data ++ compressed_pattern
  let initCmd ← init_pattern_bmp_load (compressed_pattern.length + 48) pattern_index
    primary_controller
  let dataCmds ← bmpDataChunks data primary_controller
  Except.ok (initCmd :: dataCmds)

/-- An exposure/dark-time argument: Python `None`, a bare `int`, or a list
of ints (the three shapes accepted by the orchestrators). -/
inductive TimesArg where
  | noneT : TimesArg
  | intT : Nat → TimesArg
  | listT : List Nat → TimesArg
deriving Repr, DecidableEq

/-- The scalar-to-vector broadcast used by both orchestrators
(dlp_driver.py:910-926): a bare int becomes a one-element list, and a
one-element list is repeated `npatterns` times when `npatterns > 1`
(Python list multiplication).  A `None` that reaches this step fails the
`isinstance` integer check. -/
def broadcast_times (npatterns : Nat) (t : TimesArg) : Except String (List Nat) :=
  match t with
  | TimesArg.noneT => Except.error "times must be a list of integers"
  | TimesArg.intT n =>
    if npatterns > 1 then Except.ok (List.replicate npatterns n) else Except.ok [n]
  | TimesArg.listT l =>
    if npatterns > 1 ∧ l.length = 1 then Except.ok (List.replicate npatterns (l.headD 0))
    else Except.ok l

/-- `_index_2pic_bit` (dlp_driver.py:1240): firmware index `i` maps to
picture index `i // 24` and bit index `i - 24 * (i // 24)`. -/
def index_2pic_bit (i : Nat) : Nat × Nat := (i / 24, i - 24 * (i / 24))

/-- `upload_pattern_sequence` (dlp_driver.py:877) as the ordered list of
`send_command` calls of one on-the-fly upload, assuming every device reply is
error-free (otherwise the source inserts `read_error_description` commands).
`patH`/`patW` are `patterns.shape[1:]`; `dmd_width`/`dmd_height` and
`dual_controller` are the class attributes of the device model.  Steps, in
source order: validation and scalar broadcast; stop; set-mode(on-the-fly);
stop; one LUT definition per `zip(patterns, exp_times, dark_times)` entry
(picture/bit indices from `_index_2pic_bit`); LUT configuration;
`combine_patterns`; the combined frames in *reversed* enumeration order, each
compressed (only `'erle'` passes validation) and sent through
`_pattern_bmp_load` — split into halves along the last axis for a
dual-controller DMD (`np.array_split`, first half `⌈W/2⌉` columns), the
primary controller first; LUT configuration again; start; one extra stop when
`triggered`. -/
def upload_pattern_sequence (dual_controller : Bool) (dmd_width dmd_height : Nat)
    (patterns : List Mat) (patH patW : Nat)
    (exp_times dark_times : TimesArg) (triggered clear_pattern_after_trigger : Bool)
    (bit_depth num_repeats : Nat) (compression_mode : String) :
    Except String (List UsbCmd) := do
  let npatterns := patterns.length
  let exp ← broadcast_times npatterns
    (if exp_times = TimesArg.noneT then TimesArg.intT 105 else exp_times)
  let dark ← broadcast_times npatterns dark_times
  if (compression_modes compression_mode).isNone then
    Except.error "unsupported compression mode"
  else if compression_mode ≠ "erle" then
    Except.error "Currently only erle compression is implemented"
  else
    let stop1 ← start_stop_sequence "stop"
    let modeCmd ← set_pattern_mode "on-the-fly"
    let stop2 ← start_stop_sequence "stop"
    let lutdefs ← (List.range (min npatterns (min exp.length dark.length))).mapM fun ii =>
      pattern_display_lut_definition ii (exp.getD ii 0) (dark.getD ii 0)
        triggered clear_pattern_after_trigger bit_depth true
        (index_2pic_bit ii).1 (index_2pic_bit ii).2
    let cfg1 ← pattern_display_lut_configuration npatterns num_repeats
    let combined ←
      if bit_depth = 1 then combine_patterns patH patW patterns 1
      else Except.error "combining images only implemented for bit depth 1"
    let bmps ← ((List.range combined.length).reverse).mapM fun ii => do
      let dmd_pattern := combined.getD ii []
      if dual_controller then
        let p0 := dmd_pattern.map fun row => row.take ((patW + 1) / 2)
        let p1 := dmd_pattern.map fun row => row.drop ((patW + 1) / 2)
        let cp0 ← encode_erle ((patW + 1) / 2) p0
        let cp1 ← encode_erle (patW - (patW + 1) / 2) p1
        let c0 ← pattern_bmp_load dual_controller dmd_width dmd_height cp0
          compression_mode ii true
        let c1 ← pattern_bmp_load dual_controller dmd_width dmd_height cp1
          compression_mode ii false
        Except.ok (c0 ++ c1)
      else
        let cp ← encode_erle patW dmd_pattern
        pattern_bmp_load dual_controller dmd_width dmd_height cp compression_mode ii true
    let cfg2 ← pattern_display_lut_configuration npatterns num_repeats
    let startCmd ← start_stop_sequence "start"
    let trailing ←
      if triggered then do
        let s ← start_stop_sequence "stop"
        Except.ok [s]
      else Except.ok ([] : List UsbCmd)
    Except.ok ([stop1, modeCmd, stop2] ++ lutdefs ++ [cfg1] ++ bmps.flatten ++
      [cfg2, startCmd] ++ trailing)

/-- `set_pattern_sequence` (dlp_driver.py:1003) as the ordered list of
`send_command` calls, assuming error-free replies.  In source order: the
picture/bit indices of the given firmware indices are computed; a ValueError
is raised when `mode == 'on-the-fly'` and 0 is absent from the bit indices
(the known first-pattern issue); times are broadcast; then
stop; set-mode(mode); stop; one LUT definition per `zip(exp_times,
dark_times)` entry (indexing `pic_indices[ii]`/`bit_indices[ii]`, an
IndexError when the time lists are longer); LUT configuration; start; one
extra stop when `triggered`. -/
def set_pattern_sequence (pattern_indices : List Nat) (exp_times dark_times : TimesArg)
    (triggered clear_pattern_after_trigger : Bool) (bit_depth num_repeats : Nat)
    (mode : String) : Except String (List UsbCmd) := do
  let nimgs := pattern_indices.length
  let pic_indices := pattern_indices.map fun i => (index_2pic_bit i).1
  let bit_indices := pattern_indices.map fun i => (index_2pic_bit i).2
  if mode = "on-the-fly" ∧ ¬ (0 ∈ bit_indices) then
    Except.error "Known issue that if 0 is not included in the bit indices, then the patterns displayed will not correspond with the indices supplied."
  else
    let exp ← broadcast_times nimgs
      (if exp_times = TimesArg.noneT then TimesArg.intT 105 else exp_times)
    let dark ← broadcast_times nimgs dark_times
    let stop1 ← start_stop_sequence "stop"
    let modeCmd ← set_pattern_mode mode
    let stop2 ← start_stop_sequence "stop"
    let lutdefs ← (List.range (min exp.length dark.length)).mapM fun ii =>
      match pic_indices[ii]?, bit_indices[ii]? with
      | some pic, some bit =>
        pattern_display_lut_definition ii (exp.getD ii 0) (dark.getD ii 0)
          triggered clear_pattern_after_trigger bit_depth true pic bit
      | _, _ => Except.error "list index out of range"
    let cfg ← pattern_display_lut_configuration nimgs num_repeats
    let startCmd ← start_stop_sequence "start"
    let trailing ←
      if triggered then do
        let s ← start_stop_sequence "stop"
        Except.ok [s]
      else Except.ok ([] : List UsbCmd)
    Except.ok ([stop1, modeCmd, stop2] ++ lutdefs ++ [cfg] ++ [startCmd] ++ trailing)

/-! ## Pure command shapes

Closed forms of the commands the façade produces when all arguments are in
range; the theorems below prove the monadic façade equal to them. -/

/-- The PAT_START_STOP stop command. -/
def stopCmd : UsbCmd := ⟨"w", false, 0x1A24, [0x00], 0x05⟩

/-- The PAT_START_STOP start command. -/
def startCmd : UsbCmd := ⟨"w", false, 0x1A24, [0x02], 0x08⟩

/-- The DISP_MODE command selecting on-the-fly mode. -/
def otfModeCmd : UsbCmd := ⟨"w", true, 0x1A1B, [0x03], 0x00⟩

/-- The PAT_CONFIG command for in-range arguments. -/
def lutCfgCmd (num_patterns num_repeat : Nat) : UsbCmd :=
  ⟨"w", true, 0x1A31,
    [num_patterns % 256, num_patterns / 256] ++
      [num_repeat % 256, num_repeat / 256 % 256, num_repeat / 65536 % 256,
        num_repeat / 16777216], 0x00⟩

/-- The MBOX_DATA command for in-range arguments with trigger 2 disabled:
2-byte position, 3-byte exposure, misc byte (bit 0 = clear-after-trigger,
bit 4 = 1, bit 7 = wait-for-trigger), 2-byte dark time + zero, trigger-2
byte 0, stored image index, 8 × stored bit index. -/
def lutDefCmd (seqpos exposure dark : Nat) (wait_for_trigger clear : Bool)
    (pic bit : Nat) : UsbCmd :=
  ⟨"w", true, 0x1A34,
    [seqpos % 256, seqpos / 256] ++
      [exposure % 256, exposure / 256 % 256, exposure / 65536 % 256] ++
      [(if clear then 1 else 0) + 16 + (if wait_for_trigger then 128 else 0)] ++
      [dark % 256, dark / 256, 0] ++ [0x00] ++ [pic] ++ [8 * bit], 0x00⟩

/-- The PATMEM_LOAD_INIT command for in-range arguments. -/
def bmpInitCmd (pattern_length pattern_index : Nat) (primary_controller : Bool) : UsbCmd :=
  ⟨"w", true, (if primary_controller then 0x1A2A else 0x1A2C),
    [pattern_index % 256, pattern_index / 256] ++
      [pattern_length % 256, pattern_length / 256 % 256, pattern_length / 65536 % 256,
        pattern_length / 16777216], 0x00⟩

/-- The 48-byte BMP header for in-range width/height and compression byte
`cbyte`, for a compressed payload of `n` bytes. -/
def bmpHeaderBytes (w h n cbyte : Nat) : List Nat :=
  [0x53, 0x70, 0x6C, 0x64] ++ [w % 256, w / 256] ++ [h % 256, h / 256] ++
    [n % 256, n / 256 % 256, n / 65536 % 256, n / 16777216] ++
    List.replicate 8 0xFF ++ List.replicate 4 0x00 ++ [0x01] ++ [cbyte] ++
    [0x01] ++ [0x00, 0x00] ++ [0x01] ++ List.replicate 18 0x00

/-- The PATMEM_LOAD_DATA chunk commands for a header-plus-payload `data`. -/
def bmpDataCmdList (data : List Nat) (primary_controller : Bool) : List UsbCmd :=
  (List.range ((data.length + 503) / 504)).map fun k =>
    let data_current := (data.drop (504 * k)).take 504
    ⟨"w", false, (if primary_controller then 0x1A2B else 0x1A2D),
      [data_current.length % 256, data_current.length / 256] ++ data_current, 0x00⟩

/-- The full command list of one `_pattern_bmp_load` call (single-controller
width) for in-range arguments: the init command followed by the data chunks
of the 48-byte header plus compressed payload. -/
def bmpLoadCmds (w h : Nat) (compressed : List Nat) (cbyte pattern_index : Nat)
    (primary_controller : Bool) : List UsbCmd :=
  bmpInitCmd (compressed.length + 48) pattern_index primary_controller ::
    bmpDataCmdList (bmpHeaderBytes w h compressed.length cbyte ++ compressed)
      primary_controller

/-! ## Helper lemmas -/

theorem mapM_ok {α β : Type} (f : α → Except String β) (g : α → β) :
    ∀ (l : List α), (∀ x ∈ l, f x = Except.ok (g x)) → l.mapM f = Except.ok (l.map g) := by
  intro l
  induction l with
  | nil => intro _; rfl
  | cons x xs ih =>
    intro h
    rw [List.mapM_cons, h x (by simp), ih (fun y hy => h y (by simp [hy]))]
    rfl

theorem erle_len2bytes_eq {l : Nat} (h : l ≤ 32767) :
    erle_len2bytes l = Except.ok (if l < 128 then [l] else [l % 128 + 128, l / 128]) := by
  have hand : l &&& 127 = l % 128 := Nat.and_pow_two_sub_one_eq_mod l 7
  have hor : ∀ a, a < 128 → a ||| 128 = a + 128 := by decide
  have hshift : l >>> 7 = l / 128 := by
    simp [Nat.shiftRight_eq_div_pow]
  unfold erle_len2bytes
  have hgt : ¬ l > 2 ^ 15 - 1 := by omega
  rcases Nat.lt_or_ge l 128 with h128 | h128
  · simp [hgt, h128]; omega
  · simp only [hgt, if_false, if_neg (Nat.not_lt.mpr h128)]
    rw [hand, hor _ (Nat.mod_lt _ (by norm_num)), hshift]

theorem send_raw_packets_length (buffer : List Nat) :
    (send_raw_packets buffer).length = (buffer.length + 63) / 64 := by
  simp [send_raw_packets]

theorem send_raw_packets_sizes (buffer : List Nat) :
    ∀ pkt ∈ send_raw_packets buffer, pkt.length = 64 := by
  intro pkt hmem
  simp only [send_raw_packets, List.mem_map, List.mem_range] at hmem
  obtain ⟨k, -, rfl⟩ := hmem
  have hch : ((buffer.drop (64 * k)).take 64).length ≤ 64 := by
    simp
  simp only [List.length_append, List.length_replicate]
  omega

/-- C7: for `n ∈ [0, 32767]`, `erle_bytes2len (erle_len2bytes n) = n`; the
encoding is a single byte exactly when `n < 128`, and otherwise is the pair
`[(n & 0x7F) | 0x80, n >> 7]`. -/
theorem C7_length_codec_roundtrip (n : Nat) (h : n ≤ 32767) :
    ∃ bs, erle_len2bytes n = Except.ok bs ∧ erle_bytes2len bs = n ∧
      (bs.length = 1 ↔ n < 128) ∧
      (¬ n < 128 → bs = [(n &&& 0x7F) ||| 0x80, n >>> 7]) := by
  rw [erle_len2bytes_eq h]
  have hand : n &&& 127 = n % 128 := Nat.and_pow_two_sub_one_eq_mod n 7
  have hor : ∀ a, a < 128 → a ||| 128 = a + 128 := by decide
  have hshift : n >>> 7 = n / 128 := by simp [Nat.shiftRight_eq_div_pow]
  rcases Nat.lt_or_ge n 128 with h128 | h128
  · exact ⟨[n], by simp [h128], by simp [erle_bytes2len], by simp [h128], by simp [h128]⟩
  · refine ⟨[n % 128 + 128, n / 128], by rw [if_neg (Nat.not_lt.mpr h128)], ?_,
      by simp; omega, ?_⟩
    · show erle_bytes2len [n % 128 + 128, n / 128] = n
      simp only [erle_bytes2len, List.length_cons, List.length_nil]
      norm_num
      rw [Nat.shiftLeft_eq]
      have := Nat.div_add_mod n 128
      omega
    · intro _
      rw [hand, hor _ (Nat.mod_lt _ (by norm_num)), hshift]

/-- Witness for C7 at `n = 200`. -/
theorem C7_length_codec_roundtrip_witness :
    ∃ bs, erle_len2bytes 200 = Except.ok bs ∧ erle_bytes2len bs = 200 ∧
      (bs.length = 1 ↔ 200 < 128) ∧
      (¬ 200 < 128 → bs = [(200 &&& 0x7F) ||| 0x80, 200 >>> 7]) :=
  C7_length_codec_roundtrip 200 (by decide)

/-- C9: the guard of `set_trigger_in1` is `delay_us < 104`, so a delay of
104 µs — strictly below the documented 105 µs minimum — is *not* rejected:
the TRIG_IN1_CTL command is sent.  (103 µs is rejected, with an error message
that itself demands at least 105 µs.) -/
theorem C9_trigger_in1_guard :
    set_trigger_in1 104 "rising" =
      Except.ok ⟨"w", true, 0x1A35, [104, 0, 0], 0x00⟩ ∧
    set_trigger_in1 103 "rising" =
      Except.error "delay time must be 105us or longer." := by
  constructor <;> rfl

/-- C5 counterexample: at exposure 105, dark 0, triggered, no clear, indices
0, the 12-byte MBOX_DATA payload is *not* the claimed byte string (its misc
byte is `0b1001_0000`, not `0b0000_1001`). -/
theorem C5_counterexample :
    (pattern_display_lut_definition 0 105 0 true false 1 true 0 0).toOption.map UsbCmd.data ≠
      some [0x00, 0x00, 0x69, 0x00, 0x00, 0b00001001, 0x00, 0x00, 0x00, 0x00, 0x00, 0x00] := by
  decide

/-- C5 (amended): the misc byte carries clear-after-trigger in bit 0, zeros
in bits 1..3, the constant 1 in bit 4, zeros in bits 5..6 and
wait-for-trigger in bit 7; consequently the example payload is
`[0x00, 0x00, 0x69, 0x00, 0x00, 0x90, 0x00, 0x00, 0x00, 0x00, 0x00, 0x00]`. -/
theorem C5_lut_definition_payload :
    pattern_display_lut_definition 0 105 0 true false 1 true 0 0 =
      Except.ok ⟨"w", true, 0x1A34,
        [0x00, 0x00, 0x69, 0x00, 0x00, 0x90, 0x00, 0x00, 0x00, 0x00, 0x00, 0x00], 0x00⟩ ∧
    ∀ t c : Bool, (pattern_display_lut_definition 0 105 0 t c 1 true 0 0).toOption.map
        (fun cmd => cmd.data.getD 5 0) =
      some ((if c then 1 else 0) + 16 + (if t then 128 else 0)) := by
  exact ⟨rfl, by decide⟩

/-- C4 counterexample: a command with a 59-byte payload (≤ 504 bytes) is
transmitted in two packets, not one. -/
theorem C4_counterexample :
    ∃ buf, send_command_buffer ⟨"w", false, 0x1A24, List.replicate 59 0, 0⟩ =
        Except.ok buf ∧
      (List.replicate 59 (0 : Nat)).length ≤ 504 ∧
      (send_raw_packets buf).length = 2 :=
  ⟨_, rfl, by decide, by decide⟩

/-- C4 (amended): every command whose header fits the 2-byte length field is
sent in exactly `⌈(payload_length + 6) / 64⌉` packets of 64 bytes each
(a single packet exactly when the payload is at most 58 bytes). -/
theorem C4_packet_count (c : UsbCmd)
    (hrw : c.rw_mode = "r" ∨ c.rw_mode = "w")
    (hlen : c.data.length + 2 < 65536) (hcmd : c.command < 65536) :
    ∃ buf, send_command_buffer c = Except.ok buf ∧
      buf.length = c.data.length + 6 ∧
      (send_raw_packets buf).length = (c.data.length + 6 + 63) / 64 ∧
      ((send_raw_packets buf).length = 1 ↔ c.data.length ≤ 58) ∧
      ∀ pkt ∈ send_raw_packets buf, pkt.length = 64 := by
  have hbuf : send_command_buffer c = Except.ok
      ([(if c.rw_mode = "r" then 128 else 0) + (if c.reply then 64 else 0), c.sequence_byte] ++
        [(c.data.length + 2) % 256, (c.data.length + 2) / 256] ++
        [c.command % 256, c.command / 256] ++ c.data) := by
    rcases hrw with h | h <;>
      simp [send_command_buffer, pack_H, h, hlen, hcmd, Bind.bind, Except.bind]
  refine ⟨_, hbuf, by simp, ?_, ?_, send_raw_packets_sizes _⟩
  · rw [send_raw_packets_length]; simp
  · rw [send_raw_packets_length]; simp; omega

/-- Witness for C4 at the 59-byte payload. -/
theorem C4_packet_count_witness :
    ∃ buf, send_command_buffer ⟨"w", false, 0x1A24, List.replicate 59 0, 0⟩ =
        Except.ok buf ∧
      buf.length = (List.replicate 59 (0 : Nat)).length + 6 ∧
      (send_raw_packets buf).length = ((List.replicate 59 (0 : Nat)).length + 6 + 63) / 64 ∧
      ((send_raw_packets buf).length = 1 ↔ (List.replicate 59 (0 : Nat)).length ≤ 58) ∧
      ∀ pkt ∈ send_raw_packets buf, pkt.length = 64 :=
  C4_packet_count ⟨"w", false, 0x1A24, List.replicate 59 0, 0⟩ (Or.inr rfl)
    (by decide) (by decide)

/-- C2: `split_combined_patterns` does not invert `combine_patterns` on the
R plane.  Seventeen 1×1 patterns with pattern 16 set give a combined frame
with R = 1, but the split returns 0 for pattern 16 (the R-plane branch
shifts right by `ii + 8` = 24 bits instead of `ii - 16`), while the B and G
planes do round-trip. -/
theorem C2_split_r_plane_bug :
    ∃ frames,
      combine_patterns 1 1 (List.replicate 16 [[0]] ++ [[[1]]]) 1 = Except.ok frames ∧
      frames.getD 0 [] = [[(1, 0, 0)]] ∧
      (split_combined_patterns 1 1 (frames.getD 0 [])).getD 16 [] = [[0]] ∧
      (List.replicate 16 ([[0]] : Mat) ++ [[[1]]]).getD 16 [] = [[1]] :=
  ⟨_, rfl, by decide, by decide, by decide⟩

/-- C8 counterexample: firmware indices `[25]` have bit indices `[1]` —
a nonzero bit index with 0 absent — yet the pre-stored flow raises no
warning: the sequence is programmed. -/
theorem C8_counterexample :
    ∃ tr, set_pattern_sequence [25] TimesArg.noneT (TimesArg.intT 0) false true 1 0
        "pre-stored" = Except.ok tr :=
  ⟨_, rfl⟩

/-- C8 (amended): the known-issue check fires only for `mode = 'on-the-fly'`
in `set_pattern_sequence`: there, bit indices without 0 raise a ValueError
before any command is issued. -/
theorem C8_bit_index_check (pattern_indices : List Nat) (exp_times dark_times : TimesArg)
    (triggered clear : Bool) (bit_depth num_repeats : Nat)
    (h : ∀ i ∈ pattern_indices, i % 24 ≠ 0) :
    set_pattern_sequence pattern_indices exp_times dark_times triggered clear bit_depth
        num_repeats "on-the-fly" =
      Except.error "Known issue that if 0 is not included in the bit indices, then the patterns displayed will not correspond with the indices supplied." := by
  unfold set_pattern_sequence
  rw [if_pos]
  refine ⟨rfl, ?_⟩
  intro hmem
  simp only [List.mem_map] at hmem
  obtain ⟨i, hi, hbit⟩ := hmem
  have := h i hi
  simp only [index_2pic_bit] at hbit
  omega

/-- Witness for C8 at indices `[25]`. -/
theorem C8_bit_index_check_witness :
    set_pattern_sequence [25] TimesArg.noneT (TimesArg.intT 0) false true 1 0
        "on-the-fly" =
      Except.error "Known issue that if 0 is not included in the bit indices, then the patterns displayed will not correspond with the indices supplied." :=
  C8_bit_index_check [25] TimesArg.noneT (TimesArg.intT 0) false true 1 0 (by decide)

theorem encodeRowsErle_ok_chain {W : Nat} (hW : W < 128) :
    ∀ (rows : List Row) (prev : Option Row) (bs : List Nat),
      encodeRowsErle W prev rows = Except.ok bs →
      List.Chain' (· ≠ ·) (prev.toList ++ rows) := by
  intro rows
  induction rows with
  | nil =>
    intro prev bs _
    cases prev <;> simp
  | cons r rs ih =>
    intro prev bs h
    simp only [encodeRowsErle, Bind.bind] at h
    cases hh : encodeRowErle W prev r with
    | error e => rw [hh] at h; exact absurd h (by simp [Except.bind])
    | ok hd =>
      rw [hh] at h
      cases ht : encodeRowsErle W (some r) rs with
      | error e => rw [ht] at h; exact absurd h (by simp [Except.bind])
      | ok tl =>
        have hchain := ih (some r) tl ht
        have hne : prev ≠ some r := by
          intro hpr
          rw [encodeRowErle, if_pos hpr, encodeRowCopy,
            erle_len2bytes_eq (by omega : W ≤ 32767), if_pos hW] at hh
          exact absurd hh (by simp [Bind.bind, Except.bind])
        cases prev with
        | none => simpa using hchain
        | some p =>
          simp only [Option.toList_some, List.singleton_append, List.chain'_cons]
          refine ⟨fun hpr => hne (by rw [hpr]), ?_⟩
          simpa using hchain

theorem encodeRowsRle_ok_chain {W : Nat} (hW : W < 128) :
    ∀ (rows : List Row) (prev : Option Row) (bs : List Nat),
      encodeRowsRle W prev rows = Except.ok bs →
      List.Chain' (· ≠ ·) (prev.toList ++ rows) := by
  intro rows
  induction rows with
  | nil =>
    intro prev bs _
    cases prev <;> simp
  | cons r rs ih =>
    intro prev bs h
    simp only [encodeRowsRle, Bind.bind] at h
    cases hh : encodeRowRle W prev r with
    | error e => rw [hh] at h; exact absurd h (by simp [Except.bind])
    | ok hd =>
      rw [hh] at h
      cases ht : encodeRowsRle W (some r) rs with
      | error e => rw [ht] at h; exact absurd h (by simp [Except.bind])
      | ok tl =>
        have hchain := ih (some r) tl ht
        have hne : prev ≠ some r := by
          intro hpr
          rw [encodeRowRle, if_pos hpr, encodeRowCopy,
            erle_len2bytes_eq (by omega : W ≤ 32767), if_pos hW] at hh
          exact absurd hh (by simp [Bind.bind, Except.bind])
        cases prev with
        | none => simpa using hchain
        | some p =>
          simp only [Option.toList_some, List.singleton_append, List.chain'_cons]
          refine ⟨fun hpr => hne (by rw [hpr]), ?_⟩
          simpa using hchain

/-- C10: a pattern of width below 128 with two equal consecutive rows makes
both encoders raise (the row-copy branch unpacks the one-byte
`erle_len2bytes(nx)` into two variables) instead of returning a stream. -/
theorem C10_rowcopy_unpack_raises (pattern : List Row) (W : Nat) (hW : W < 128)
    (hdup : ¬ List.Chain' (· ≠ ·) pattern) :
    (∃ e, encode_erle W pattern = Except.error e) ∧
    (∃ e, encode_rle W pattern = Except.error e) := by
  constructor
  · cases h : encode_erle W pattern with
    | error e => exact ⟨e, rfl⟩
    | ok bs =>
      exfalso
      apply hdup
      simp only [encode_erle, Bind.bind] at h
      cases hb : encodeRowsErle W none pattern with
      | error e => rw [hb] at h; exact absurd h (by simp [Except.bind])
      | ok body => simpa using encodeRowsErle_ok_chain hW pattern none body hb
  · cases h : encode_rle W pattern with
    | error e => exact ⟨e, rfl⟩
    | ok bs =>
      exfalso
      apply hdup
      simp only [encode_rle, Bind.bind] at h
      cases hb : encodeRowsRle W none pattern with
      | error e => rw [hb] at h; exact absurd h (by simp [Except.bind])
      | ok body => simpa using encodeRowsRle_ok_chain hW pattern none body hb

/-- Witness for C10: a 3×2×1 pattern with two equal rows. -/
theorem C10_rowcopy_unpack_raises_witness :
    (∃ e, encode_erle 1 [[((5 : Nat), (5 : Nat), (5 : Nat))], [(5, 5, 5)]] = Except.error e) ∧
    (∃ e, encode_rle 1 [[((5 : Nat), (5 : Nat), (5 : Nat))], [(5, 5, 5)]] = Except.error e) :=
  C10_rowcopy_unpack_raises [[(5, 5, 5)], [(5, 5, 5)]] 1 (by decide)
    (by simp [List.chain'_cons])

theorem blankLine_length (W : Nat) : (blankLine W).length = W := by
  simp [blankLine]

theorem writeSeg_nil (cl : Row) (pos : Nat) : writeSeg cl pos [] = cl := by
  simp [writeSeg]

theorem writeSeg_length (cl : Row) (pos : Nat) (seg : Row)
    (h : pos + seg.length ≤ cl.length) :
    (writeSeg cl pos seg).length = cl.length := by
  simp [writeSeg, List.length_take, List.length_drop]
  omega

theorem writeSeg_full (cl : Row) (seg : Row) (h : cl.length ≤ seg.length) :
    writeSeg cl 0 seg = seg := by
  simp [writeSeg, List.drop_eq_nil_of_le h]

theorem writeSeg_append (cl : Row) (pos : Nat) (a b : Row)
    (h : pos + a.length ≤ cl.length) :
    writeSeg (writeSeg cl pos a) (pos + a.length) b = writeSeg cl pos (a ++ b) := by
  unfold writeSeg
  have hT : (cl.take pos).length = pos := by simp; omega
  have hTa : (cl.take pos ++ a).length = pos + a.length := by simp [hT]
  have hassoc : cl.take pos ++ a ++ cl.drop (pos + a.length) =
      (cl.take pos ++ a) ++ cl.drop (pos + a.length) := by simp [List.append_assoc]
  rw [hassoc, List.take_left' hTa]
  have hdrop : ((cl.take pos ++ a) ++ cl.drop (pos + a.length)).drop
      (pos + a.length + b.length) = cl.drop (pos + (a ++ b).length) := by
    have h1 : pos + a.length + b.length = (cl.take pos ++ a).length + b.length := by
      rw [hTa]
    rw [h1, ← List.drop_drop, List.drop_left, List.drop_drop]
    congr 1
    simp; omega
  rw [hdrop]
  simp [List.append_assoc]

theorem rowRuns_pos : ∀ (r : Row), ∀ p ∈ rowRuns r, 1 ≤ p.2 := by
  intro r
  induction r with
  | nil => intro p hp; simp [rowRuns] at hp
  | cons v rest ih =>
    intro p hp
    rw [rowRuns] at hp
    cases h : rowRuns rest with
    | nil => rw [h] at hp; simp at hp; simp [hp]
    | cons q tail =>
      obtain ⟨w, n⟩ := q
      rw [h] at hp
      by_cases hv : v = w
      · simp only [hv, if_pos rfl] at hp
        rcases List.mem_cons.mp hp with h1 | h1
        · simp [h1]
        · exact ih p (h ▸ List.mem_cons_of_mem _ h1)
      · simp only [if_neg hv] at hp
        rcases List.mem_cons.mp hp with h1 | h1
        · simp [h1]
        · exact ih p (h ▸ h1)

theorem rowRuns_flatten : ∀ (r : Row), runsFlatten (rowRuns r) = r := by
  intro r
  induction r with
  | nil => rfl
  | cons v rest ih =>
    rw [rowRuns]
    cases h : rowRuns rest with
    | nil =>
      rw [h] at ih
      simp [runsFlatten] at ih ⊢
      exact ih
    | cons q tail =>
      obtain ⟨w, n⟩ := q
      rw [h] at ih
      by_cases hv : v = w
      · simp only [hv, if_pos rfl]
        simp [runsFlatten, List.replicate_succ] at ih ⊢
        exact ih
      · simp only [if_neg hv]
        simp [runsFlatten] at ih ⊢
        exact ih

theorem rowRuns_sumLens : ∀ (r : Row), sumLens (rowRuns r) = r.length := by
  intro r
  have h := congrArg List.length (rowRuns_flatten r)
  rw [← h]
  simp [runsFlatten, sumLens]
  induction rowRuns r with
  | nil => rfl
  | cons p ps ih => simp [ih]

theorem encodeRunsErle_ok : ∀ (runs : List (RGB × Nat)),
    (∀ p ∈ runs, p.2 ≤ 32767) →
    encodeRunsErle runs = Except.ok (erleRunsBytes runs) := by
  intro runs
  induction runs with
  | nil => intro _; rfl
  | cons p ps ih =>
    intro h
    obtain ⟨v, l⟩ := p
    rw [encodeRunsErle, erle_len2bytes_eq (h (v, l) (by simp)),
      ih (fun q hq => h q (List.mem_cons_of_mem _ hq))]
    simp [erleRunsBytes, erleRunBytes, Bind.bind, Except.bind]

theorem erleRunsBytes_length_ge : ∀ (runs : List (RGB × Nat)),
    runs.length ≤ (erleRunsBytes runs).length := by
  intro runs
  induction runs with
  | nil => simp [erleRunsBytes]
  | cons p ps ih =>
    simp only [erleRunsBytes, List.map_cons, List.flatten_cons, List.length_append,
      List.length_cons]
    have : 1 ≤ (erleRunBytes p.1 p.2).length := by
      simp [erleRunBytes]
    simp only [erleRunsBytes] at ih
    omega

theorem erle_bytes2len_pair (l : Nat) :
    erle_bytes2len [l % 128 + 128, l / 128] = l := by
  simp [erle_bytes2len, Nat.shiftLeft_eq]
  omega

theorem decodeLoop_run1 (W f l v1 v2 v3 : Nat) (rest : List Nat) (ln lp : Nat)
    (cl : Row) (acc : List Row)
    (hlp : lp < W) (hl0 : 0 < l) (hl : l < 128) (hfit : lp + l ≤ W) :
    decodeLoop W (f + 1) (l :: v1 :: v2 :: v3 :: rest) ln lp cl acc =
      decodeLoop W f rest ln (lp + l) (writeSeg cl lp (List.replicate l (v1, v2, v3))) acc := by
  rw [decodeLoop]
  rw [if_neg (by omega : ¬ lp > W)]
  simp only [if_neg (by omega : ¬ lp = W), if_neg (by omega : ¬ l = 0), if_pos hl, if_pos hfit]

theorem decodeLoop_run2 (W f l v1 v2 v3 : Nat) (rest : List Nat) (ln lp : Nat)
    (cl : Row) (acc : List Row)
    (hlp : lp < W) (hl : 128 ≤ l) (hfit : lp + l ≤ W) :
    decodeLoop W (f + 1) ((l % 128 + 128) :: (l / 128) :: v1 :: v2 :: v3 :: rest) ln lp cl acc =
      decodeLoop W f rest ln (lp + l) (writeSeg cl lp (List.replicate l (v1, v2, v3))) acc := by
  rw [decodeLoop]
  rw [if_neg (by omega : ¬ lp > W)]
  simp only [if_neg (by omega : ¬ lp = W), if_neg (by omega : ¬ l % 128 + 128 = 0),
    if_neg (by omega : ¬ l % 128 + 128 < 128), erle_bytes2len_pair, if_pos hfit]

theorem decodeLoop_flush (W f b : Nat) (rest : List Nat) (ln : Nat)
    (cl : Row) (acc : List Row) (hW : 0 < W) :
    decodeLoop W (f + 1) (b :: rest) ln W cl acc =
      decodeLoop W (f + 1) (b :: rest) (ln + 1) 0 (blankLine W) (acc ++ [cl]) := by
  conv_lhs => rw [decodeLoop]
  conv_rhs => rw [decodeLoop]
  rw [if_neg (by omega : ¬ W > W), if_neg (by omega : ¬ (0 : Nat) > W)]
  simp only [if_pos rfl, if_neg (by omega : ¬ 0 = W), if_true, ite_true]

theorem decodeLoop_copy (W f : Nat) (rest : List Nat) (cl prevRow : Row)
    (acc0 : List Row) (hW : 128 ≤ W) (hcl : cl.length = W) (hprev : prevRow.length = W) :
    decodeLoop W (f + 1) (0 :: 1 :: (W % 128 + 128) :: (W / 128) :: rest)
        (acc0.length + 1) 0 cl (acc0 ++ [prevRow]) =
      decodeLoop W f rest (acc0.length + 1) W prevRow (acc0 ++ [prevRow]) := by
  rw [decodeLoop]
  rw [if_neg (by omega : ¬ (0 : Nat) > W)]
  simp only [if_neg (by omega : ¬ (0 : Nat) = W), if_pos rfl,
    if_neg (by omega : ¬ (1 : Nat) = 0), if_neg (by omega : ¬ W % 128 + 128 < 128),
    if_neg (by omega : ¬ acc0.length + 1 = 0), List.take_succ_cons, List.take_zero,
    List.drop_one, List.tail_cons, if_true, ite_true, Nat.add_sub_cancel]
  rw [erle_bytes2len_pair, List.getElem?_concat_length]
  simp only [if_pos (by omega : 0 + W ≤ W), List.drop_zero]
  rw [List.take_of_length_le (by omega : prevRow.length ≤ W),
    writeSeg_full cl prevRow (by omega)]
  congr 1
  omega

theorem decodeLoop_term_erle (W f : Nat) (cl : Row) (acc : List Row)
    (hW : 0 < W) (hcl : cl.length = W) :
    decodeLoop W (f + 2) [0, 1, 0] acc.length W cl acc = some (acc ++ [cl]) := by
  have hf : f + 2 = (f + 1) + 1 := rfl
  rw [hf, decodeLoop_flush W (f + 1) 0 [1, 0] acc.length cl acc hW]
  rw [decodeLoop]
  rw [if_neg (by omega : ¬ (0 : Nat) > W)]
  simp only [if_neg (by omega : ¬ (0 : Nat) = W), if_pos rfl,
    if_neg (by omega : ¬ (1 : Nat) = 0), if_pos (by omega : (0 : Nat) < 128),
    if_neg (by omega : ¬ acc.length + 1 = 0), if_true, ite_true, Nat.add_sub_cancel]
  rw [List.getElem?_concat_length]
  simp only [if_pos (by omega : 0 + 0 ≤ W), List.drop_zero, List.take_zero, writeSeg_nil]
  rw [decodeLoop]

theorem decodeLoop_term_rle (W f : Nat) (cl : Row) (acc : List Row) (hW : 0 < W) :
    decodeLoop W (f + 1) [0] acc.length W cl acc = some (acc ++ [cl]) := by
  rw [decodeLoop]
  rw [if_neg (by omega : ¬ W > W)]
  simp only [if_pos rfl, if_true, ite_true]

theorem sumLens_cons (v : RGB) (l : Nat) (ps : List (RGB × Nat)) :
    sumLens ((v, l) :: ps) = l + sumLens ps := by
  simp [sumLens]

theorem runsFlatten_cons (v : RGB) (l : Nat) (ps : List (RGB × Nat)) :
    runsFlatten ((v, l) :: ps) = List.replicate l v ++ runsFlatten ps := by
  simp [runsFlatten]

theorem decode_runs (W : Nat) : ∀ (runs : List (RGB × Nat)) (f : Nat) (rest : List Nat)
    (ln lp : Nat) (cl : Row) (acc : List Row),
    (∀ p ∈ runs, 1 ≤ p.2 ∧ p.2 ≤ 32767) →
    lp + sumLens runs ≤ W → cl.length = W →
    decodeLoop W (f + runs.length) (erleRunsBytes runs ++ rest) ln lp cl acc =
      decodeLoop W f rest ln (lp + sumLens runs) (writeSeg cl lp (runsFlatten runs)) acc := by
  intro runs
  induction runs with
  | nil =>
    intro f rest ln lp cl acc _ _ _
    simp [erleRunsBytes, sumLens, runsFlatten, writeSeg_nil]
  | cons p ps ih =>
    intro f rest ln lp cl acc hbound hfit hcl
    obtain ⟨v, l⟩ := p
    have hl1 : 1 ≤ l := (hbound (v, l) (by simp)).1
    rw [sumLens_cons] at hfit
    have hlp : lp < W := by omega
    have hfitl : lp + l ≤ W := by omega
    have hfuel : f + ((v, l) :: ps).length = (f + ps.length) + 1 := by simp; omega
    have hclth : (writeSeg cl lp (List.replicate l (v.1, v.2.1, v.2.2))).length = W := by
      rw [writeSeg_length] <;> simp [hcl] <;> omega
    have hihyp : ∀ q ∈ ps, 1 ≤ q.2 ∧ q.2 ≤ 32767 :=
      fun q hq => hbound q (List.mem_cons_of_mem _ hq)
    rcases Nat.lt_or_ge l 128 with h128 | h128
    · have hbytes : erleRunsBytes ((v, l) :: ps) ++ rest =
          l :: v.1 :: v.2.1 :: v.2.2 :: (erleRunsBytes ps ++ rest) := by
        simp [erleRunsBytes, erleRunBytes, if_pos h128]
      rw [hbytes, hfuel, decodeLoop_run1 W (f + ps.length) l v.1 v.2.1 v.2.2
        (erleRunsBytes ps ++ rest) ln lp cl acc hlp (by omega) h128 hfitl]
      rw [ih (f) (rest) ln (lp + l) _ acc hihyp (by omega) hclth]
      have hcomp : writeSeg (writeSeg cl lp (List.replicate l (v.1, v.2.1, v.2.2))) (lp + l)
          (runsFlatten ps) = writeSeg cl lp (runsFlatten ((v, l) :: ps)) := by
        have hwa := writeSeg_append cl lp (List.replicate l (v.1, v.2.1, v.2.2))
          (runsFlatten ps) (by simp [hcl]; omega)
        simpa [runsFlatten_cons] using hwa
      rw [hcomp, sumLens_cons, show lp + l + sumLens ps = lp + (l + sumLens ps) by omega]
    · have hbytes : erleRunsBytes ((v, l) :: ps) ++ rest =
          (l % 128 + 128) :: (l / 128) :: v.1 :: v.2.1 :: v.2.2 ::
            (erleRunsBytes ps ++ rest) := by
        simp [erleRunsBytes, erleRunBytes, if_neg (Nat.not_lt.mpr h128)]
      rw [hbytes, hfuel, decodeLoop_run2 W (f + ps.length) l v.1 v.2.1 v.2.2
        (erleRunsBytes ps ++ rest) ln lp cl acc hlp h128 hfitl]
      rw [ih (f) (rest) ln (lp + l) _ acc hihyp (by omega) hclth]
      have hcomp : writeSeg (writeSeg cl lp (List.replicate l (v.1, v.2.1, v.2.2))) (lp + l)
          (runsFlatten ps) = writeSeg cl lp (runsFlatten ((v, l) :: ps)) := by
        have hwa := writeSeg_append cl lp (List.replicate l (v.1, v.2.1, v.2.2))
          (runsFlatten ps) (by simp [hcl]; omega)
        simpa [runsFlatten_cons] using hwa
      rw [hcomp, sumLens_cons, show lp + l + sumLens ps = lp + (l + sumLens ps) by omega]

theorem decodeLoop_flush' (W f : Nat) (bytes : List Nat) (ln : Nat)
    (cl : Row) (acc : List Row) (hW : 0 < W) (hne : bytes ≠ []) :
    decodeLoop W (f + 1) bytes ln W cl acc =
      decodeLoop W (f + 1) bytes (ln + 1) 0 (blankLine W) (acc ++ [cl]) := by
  cases bytes with
  | nil => exact absurd rfl hne
  | cons b rest => exact decodeLoop_flush W f b rest ln cl acc hW

theorem sumLens_mem_le : ∀ (runs : List (RGB × Nat)), ∀ p ∈ runs, p.2 ≤ sumLens runs := by
  intro runs
  induction runs with
  | nil => intro p hp; simp at hp
  | cons q qs ih =>
    intro p hp
    obtain ⟨w, n⟩ := q
    rcases List.mem_cons.mp hp with h | h
    · rw [h, sumLens_cons]; omega
    · have := ih p h
      rw [sumLens_cons]; omega

theorem rowRuns_ne_nil (r : Row) (h : r ≠ []) : rowRuns r ≠ [] := by
  cases r with
  | nil => exact absurd rfl h
  | cons v rest =>
    rw [rowRuns]
    cases rowRuns rest with
    | nil => simp
    | cons q tail =>
      obtain ⟨w, n⟩ := q
      by_cases hv : v = w <;> simp [hv]

theorem encodeRowCopy_ok {W : Nat} (h1 : 128 ≤ W) (h2 : W ≤ 32767) :
    encodeRowCopy W = Except.ok [0x00, 0x01, W % 128 + 128, W / 128] := by
  rw [encodeRowCopy, erle_len2bytes_eq h2, if_neg (by omega : ¬ W < 128)]
  rfl

theorem encodeRowCopy_err {W : Nat} (h1 : W < 128) :
    encodeRowCopy W =
      Except.error "cannot unpack erle_len2bytes result into msb, lsb" := by
  rw [encodeRowCopy, erle_len2bytes_eq (by omega : W ≤ 32767), if_pos h1]
  rfl

theorem decode_row_erle (W : Nat) (hW : 0 < W) (hW2 : W ≤ 32767)
    (r cl : Row) (acc : List Row) (rb : List Nat)
    (henc : encodeRowErle W (some cl) r = Except.ok rb)
    (hr : r.length = W) (hcl : cl.length = W) :
    ∃ k, k ≤ rb.length ∧ ∀ f rest,
      decodeLoop W (f + k) (rb ++ rest) acc.length W cl acc =
        decodeLoop W f rest (acc.length + 1) W r (acc ++ [cl]) := by
  by_cases hc : cl = r
  · rw [encodeRowErle, if_pos (by rw [hc])] at henc
    have h128 : 128 ≤ W := by
      by_contra hlt
      rw [encodeRowCopy_err (by omega)] at henc
      exact Except.noConfusion henc
    rw [encodeRowCopy_ok h128 hW2] at henc
    obtain rfl : rb = [0, 1, W % 128 + 128, W / 128] := by
      injection henc with h; exact h.symm
    refine ⟨1, by simp, ?_⟩
    intro f rest
    have hb : (([0, 1, W % 128 + 128, W / 128] : List Nat) ++ rest) =
        0 :: 1 :: (W % 128 + 128) :: (W / 128) :: rest := by simp
    rw [hb, decodeLoop_flush W f 0 _ acc.length cl acc hW,
      decodeLoop_copy W f rest (blankLine W) cl acc h128 (blankLine_length W) hcl, hc]
  · rw [encodeRowErle, if_neg (by simp [hc])] at henc
    have hrne : r ≠ [] := by
      intro hnil
      rw [hnil] at hr
      simp at hr
      omega
    obtain ⟨x, xs, rfl⟩ : ∃ x xs, r = x :: xs := by
      cases r with
      | nil => exact absurd rfl hrne
      | cons x xs => exact ⟨x, xs, rfl⟩
    rw [show encodeRowValueErle (x :: xs) = encodeRunsErle (rowRuns (x :: xs)) from rfl] at henc
    have hbounds : ∀ p ∈ rowRuns (x :: xs), p.2 ≤ 32767 := by
      intro p hp
      have h1 := sumLens_mem_le (rowRuns (x :: xs)) p hp
      rw [rowRuns_sumLens] at h1
      omega
    rw [encodeRunsErle_ok _ hbounds] at henc
    obtain rfl : rb = erleRunsBytes (rowRuns (x :: xs)) := by
      injection henc with h; exact h.symm
    refine ⟨(rowRuns (x :: xs)).length, erleRunsBytes_length_ge _, ?_⟩
    intro f rest
    obtain ⟨q, qs, hq⟩ : ∃ q qs, rowRuns (x :: xs) = q :: qs := by
      cases hx : rowRuns (x :: xs) with
      | nil => exact absurd hx (rowRuns_ne_nil _ (by simp))
      | cons q qs => exact ⟨q, qs, rfl⟩
    have hnonempty : erleRunsBytes (q :: qs) ++ rest ≠ [] := by
      intro hnil
      rcases List.append_eq_nil.mp hnil with ⟨h1, -⟩
      have hge := erleRunsBytes_length_ge (q :: qs)
      rw [h1] at hge
      simp at hge
    have hbounds2 : ∀ p ∈ (q :: qs), 1 ≤ p.2 ∧ p.2 ≤ 32767 := by
      intro p hp
      exact ⟨rowRuns_pos (x :: xs) p (hq ▸ hp), hbounds p (hq ▸ hp)⟩
    have hsum : sumLens (q :: qs) = W := by
      rw [← hq, rowRuns_sumLens]
      simpa using hr
    rw [hq]
    rw [show f + (q :: qs).length = (f + qs.length) + 1 by
      simp only [List.length_cons]; omega]
    rw [decodeLoop_flush' W (f + qs.length) _ acc.length cl acc hW hnonempty]
    rw [show (f + qs.length) + 1 = f + (q :: qs).length by
      simp only [List.length_cons]; omega]
    rw [decode_runs W (q :: qs) f rest (acc.length + 1) 0 (blankLine W) (acc ++ [cl])
      hbounds2 (by omega) (blankLine_length W)]
    rw [show (0 : Nat) + sumLens (q :: qs) = W by omega]
    rw [← hq, rowRuns_flatten,
      writeSeg_full (blankLine W) (x :: xs) (by rw [blankLine_length, hr])]

theorem decode_rows_erle (W : Nat) (hW : 0 < W) (hW2 : W ≤ 32767) :
    ∀ (rows : List Row) (cl : Row) (acc : List Row) (rb : List Nat),
    encodeRowsErle W (some cl) rows = Except.ok rb →
    (∀ r ∈ rows, r.length = W) → cl.length = W →
    ∃ k, k ≤ rb.length ∧ ∀ f rest,
      decodeLoop W (f + k) (rb ++ rest) acc.length W cl acc =
        decodeLoop W f rest (acc.length + rows.length) W (rows.getLastD cl)
          (acc ++ (cl :: rows).dropLast) := by
  intro rows
  induction rows with
  | nil =>
    intro cl acc rb h _ _
    obtain rfl : rb = [] := by
      rw [encodeRowsErle] at h
      injection h with h
      exact h.symm
    exact ⟨0, by simp, fun f rest => by simp⟩
  | cons r rs ih =>
    intro cl acc rb h hshape hcl
    rw [encodeRowsErle] at h
    cases hh : encodeRowErle W (some cl) r with
    | error e => rw [hh] at h; exact absurd h (by simp [Bind.bind, Except.bind])
    | ok hd =>
      rw [hh] at h
      cases ht : encodeRowsErle W (some r) rs with
      | error e => rw [ht] at h; exact absurd h (by simp [Bind.bind, Except.bind])
      | ok tl =>
        rw [ht] at h
        obtain rfl : rb = hd ++ tl := by
          simp [Bind.bind, Except.bind] at h
          exact h.symm
        have hrW : r.length = W := hshape r (by simp)
        obtain ⟨k1, hk1, S1⟩ := decode_row_erle W hW hW2 r cl acc hd hh hrW hcl
        obtain ⟨k2, hk2, S2⟩ := ih r (acc ++ [cl]) tl ht
          (fun q hq => hshape q (List.mem_cons_of_mem _ hq)) hrW
        refine ⟨k1 + k2, by simp [List.length_append]; omega, ?_⟩
        intro f rest
        have hb : (hd ++ tl) ++ rest = hd ++ (tl ++ rest) := by simp
        rw [hb, show f + (k1 + k2) = (f + k2) + k1 by omega,
          S1 (f + k2) (tl ++ rest)]
        have := S2 f rest
        simp only [List.length_append, List.length_cons, List.length_nil] at this ⊢
        rw [this]
        congr 1
        · omega
        · rw [List.getLastD_cons]
        · rw [show (cl :: r :: rs).dropLast = cl :: (r :: rs).dropLast by
            simp [List.dropLast]]
          simp

theorem cons_dropLast_getLastD {α : Type} : ∀ (x : α) (xs : List α),
    (x :: xs).dropLast ++ [xs.getLastD x] = x :: xs := by
  intro x xs
  induction xs generalizing x with
  | nil => rfl
  | cons y ys ih =>
    have h1 : (x :: y :: ys).dropLast = x :: (y :: ys).dropLast := by simp [List.dropLast]
    have h2 : (y :: ys).getLastD x = ys.getLastD y := List.getLastD_cons x y ys
    rw [h1, h2, List.cons_append, ih y]

theorem encodeRowsErle_isOk (W : Nat) (hW : 0 < W) (hW2 : W ≤ 32767) :
    ∀ (rows : List Row) (prev : Option Row),
    (∀ r ∈ rows, r.length = W) →
    (W < 128 → List.Chain' (· ≠ ·) (prev.toList ++ rows)) →
    ∃ rb, encodeRowsErle W prev rows = Except.ok rb := by
  intro rows
  induction rows with
  | nil => intro prev _ _; exact ⟨[], rfl⟩
  | cons r rs ih =>
    intro prev hshape hchain
    have hrow : ∃ hd, encodeRowErle W prev r = Except.ok hd := by
      by_cases hc : prev = some r
      · rcases Nat.lt_or_ge W 128 with hlt | hge
        · exfalso
          have hch := hchain hlt
          rw [hc] at hch
          simp [List.chain'_cons] at hch
        · exact ⟨_, by rw [encodeRowErle, if_pos hc, encodeRowCopy_ok hge hW2]⟩
      · rw [encodeRowErle, if_neg hc]
        have hrW : r.length = W := hshape r (by simp)
        obtain ⟨x, xs, rfl⟩ : ∃ x xs, r = x :: xs := by
          cases r with
          | nil => exfalso; rw [List.length_nil] at hrW; omega
          | cons x xs => exact ⟨x, xs, rfl⟩
        rw [show encodeRowValueErle (x :: xs) = encodeRunsErle (rowRuns (x :: xs)) from rfl]
        refine ⟨_, encodeRunsErle_ok _ ?_⟩
        intro p hp
        have h1 := sumLens_mem_le _ p hp
        rw [rowRuns_sumLens, hrW] at h1
        omega
    obtain ⟨hd, hhd⟩ := hrow
    have hchain2 : W < 128 → List.Chain' (· ≠ ·) ((some r).toList ++ rs) := by
      intro hlt
      have hch := hchain hlt
      cases prev with
      | none => simpa using hch
      | some p =>
        simp only [Option.toList_some, List.singleton_append] at hch ⊢
        exact hch.tail
    obtain ⟨tl, htl⟩ := ih (some r)
      (fun q hq => hshape q (List.mem_cons_of_mem _ hq)) hchain2
    exact ⟨hd ++ tl, by rw [encodeRowsErle, hhd, htl]; rfl⟩

theorem encodeRowErle_none (W : Nat) (r : Row) (hr : r ≠ [])
    (hb : ∀ p ∈ rowRuns r, p.2 ≤ 32767) :
    encodeRowErle W none r = Except.ok (erleRunsBytes (rowRuns r)) := by
  rw [encodeRowErle, if_neg (by simp)]
  obtain ⟨y, ys, rfl⟩ : ∃ y ys, r = y :: ys := by
    cases r with
    | nil => exact absurd rfl hr
    | cons y ys => exact ⟨y, ys, rfl⟩
  rw [show encodeRowValueErle (y :: ys) = encodeRunsErle (rowRuns (y :: ys)) from rfl]
  exact encodeRunsErle_ok _ hb

/-- C1 (amended): the ERLE round-trip holds for every 3×H×W uint8 pattern
with `1 ≤ H`, `1 ≤ W ≤ 32767`, provided no two consecutive rows are equal
whenever `W < 128` (otherwise the encoder raises, see C10):
`decode_erle (H, W) (encode_erle pattern) = pattern`. -/
theorem C1_erle_roundtrip (pattern : List Row) (W : Nat)
    (hH : 0 < pattern.length) (hW : 0 < W) (hW2 : W ≤ 32767)
    (hshape : ∀ r ∈ pattern, r.length = W)
    (hdup : W < 128 → List.Chain' (· ≠ ·) pattern) :
    ∃ bs, encode_erle W pattern = Except.ok bs ∧
      decode_erle (pattern.length, W) bs = some pattern := by
  obtain ⟨x, xs, rfl⟩ : ∃ x xs, pattern = x :: xs := by
    cases pattern with
    | nil => simp at hH
    | cons x xs => exact ⟨x, xs, rfl⟩
  obtain ⟨body, hbody⟩ := encodeRowsErle_isOk W hW hW2 (x :: xs) none hshape
    (by simpa using hdup)
  refine ⟨body ++ [0, 1, 0], by rw [encode_erle, hbody]; rfl, ?_⟩
  rw [encodeRowsErle] at hbody
  have hxW : x.length = W := hshape x (by simp)
  have hxne : x ≠ [] := by
    intro h
    rw [h] at hxW
    simp at hxW
    omega
  have hb0 : ∀ p ∈ rowRuns x, 1 ≤ p.2 ∧ p.2 ≤ 32767 := by
    intro p hp
    have h1 := sumLens_mem_le _ p hp
    rw [rowRuns_sumLens, hxW] at h1
    exact ⟨rowRuns_pos x p hp, by omega⟩
  rw [encodeRowErle_none W x hxne (fun p hp => (hb0 p hp).2)] at hbody
  cases ht : encodeRowsErle W (some x) xs with
  | error e => rw [ht] at hbody; exact absurd hbody (by simp [Bind.bind, Except.bind])
  | ok tl =>
    rw [ht] at hbody
    obtain rfl : body = erleRunsBytes (rowRuns x) ++ tl := by
      simp [Bind.bind, Except.bind] at hbody
      exact hbody.symm
    obtain ⟨k, hk, S⟩ := decode_rows_erle W hW hW2 xs x [] tl ht
      (fun q hq => hshape q (List.mem_cons_of_mem _ hq)) hxW
    have S0 : ∀ f rest, decodeLoop W (f + (rowRuns x).length)
        (erleRunsBytes (rowRuns x) ++ rest) 0 0 (blankLine W) [] =
        decodeLoop W f rest 0 W x [] := by
      intro f rest
      rw [decode_runs W (rowRuns x) f rest 0 0 (blankLine W) [] hb0
        (by rw [rowRuns_sumLens, hxW]; omega) (blankLine_length W)]
      rw [show (0 : Nat) + sumLens (rowRuns x) = W by rw [rowRuns_sumLens]; omega]
      rw [rowRuns_flatten, writeSeg_full _ _ (by rw [blankLine_length, hxW])]
    rw [decode_erle]
    have hk0 : (rowRuns x).length ≤ (erleRunsBytes (rowRuns x)).length :=
      erleRunsBytes_length_ge _
    obtain ⟨F, hF⟩ : ∃ F, ((erleRunsBytes (rowRuns x) ++ tl) ++ [0, 1, 0]).length + 1 =
        ((F + 2) + k) + (rowRuns x).length := by
      refine ⟨((erleRunsBytes (rowRuns x)).length - (rowRuns x).length) +
        (tl.length - k) + 2, ?_⟩
      simp only [List.length_append, List.length_cons, List.length_nil]
      omega
    rw [hF]
    rw [show (erleRunsBytes (rowRuns x) ++ tl) ++ [0, 1, 0] =
      erleRunsBytes (rowRuns x) ++ (tl ++ [0, 1, 0]) by simp]
    rw [S0 ((F + 2) + k) (tl ++ [0, 1, 0])]
    have hS := S (F + 2) [0, 1, 0]
    simp only [List.length_nil, Nat.zero_add, List.nil_append] at hS
    rw [hS]
    have hlastW : (xs.getLastD x).length = W := hshape _ (List.getLastD_mem_cons xs x)
    rw [show xs.length = ((x :: xs).dropLast).length by simp]
    rw [decodeLoop_term_erle W F (xs.getLastD x) ((x :: xs).dropLast) hW hlastW]
    rw [cons_dropLast_getLastD]

/-- Witness for C1 at a 3×2×1 pattern with distinct rows. -/
theorem C1_erle_roundtrip_witness :
    ∃ bs, encode_erle 1 [[((0 : Nat), (0 : Nat), (0 : Nat))], [(1, 2, 3)]] = Except.ok bs ∧
      decode_erle (([[((0 : Nat), (0 : Nat), (0 : Nat))], [(1, 2, 3)]] : List Row).length, 1)
        bs = some [[(0, 0, 0)], [(1, 2, 3)]] :=
  C1_erle_roundtrip [[(0, 0, 0)], [(1, 2, 3)]] 1 (by decide) (by decide) (by decide)
    (by decide) (fun _ => by simp [List.chain'_cons]; decide)

/-- C1 counterexample: a 3×2×1 pattern with two equal rows makes
`encode_erle` raise, so the claimed round trip fails for it. -/
theorem C1_counterexample :
    ¬ ∃ bs, encode_erle 1 [[((7 : Nat), (7 : Nat), (7 : Nat))], [(7, 7, 7)]] =
        Except.ok bs ∧
      decode_erle (2, 1) bs = some [[(7, 7, 7)], [(7, 7, 7)]] := by
  intro ⟨bs, h1, h2⟩
  rw [show encode_erle 1 [[((7 : Nat), (7 : Nat), (7 : Nat))], [(7, 7, 7)]] =
    Except.error "cannot unpack erle_len2bytes result into msb, lsb" from rfl] at h1
  exact Except.noConfusion h1

theorem rleRunBytes_eq_erle (v : RGB) (l : Nat) (h : l < 128) :
    rleRunBytes v l = erleRunBytes v l := by
  rw [rleRunBytes, rleChunkLens, if_pos (by omega : l ≤ 255), erleRunBytes, if_pos h]
  rfl

theorem rleRunsBytes_eq_erle : ∀ (runs : List (RGB × Nat)),
    (∀ p ∈ runs, p.2 ≤ 127) →
    (runs.flatMap fun p => rleRunBytes p.1 p.2) = erleRunsBytes runs := by
  intro runs
  induction runs with
  | nil => intro _; rfl
  | cons q qs ih =>
    intro h
    rw [List.flatMap_cons, rleRunBytes_eq_erle q.1 q.2 (by have := h q (by simp); omega),
      ih (fun p hp => h p (List.mem_cons_of_mem _ hp))]
    simp [erleRunsBytes]

theorem encodeRowRle_eq_erle (W : Nat) (prev : Option Row) (r : Row)
    (hsmall : ∀ p ∈ rowRuns r, p.2 ≤ 127) :
    encodeRowRle W prev r = encodeRowErle W prev r := by
  rw [encodeRowRle, encodeRowErle]
  by_cases hc : prev = some r
  · rw [if_pos hc, if_pos hc]
  · rw [if_neg hc, if_neg hc]
    cases r with
    | nil => rfl
    | cons y ys =>
      rw [show encodeRowValueRle (y :: ys) =
        Except.ok ((rowRuns (y :: ys)).flatMap fun p => rleRunBytes p.1 p.2) from rfl]
      rw [show encodeRowValueErle (y :: ys) = encodeRunsErle (rowRuns (y :: ys)) from rfl]
      rw [rleRunsBytes_eq_erle _ hsmall,
        encodeRunsErle_ok _ (fun p hp => by have := hsmall p hp; omega)]

theorem encodeRowsRle_eq_erle (W : Nat) : ∀ (rows : List Row) (prev : Option Row),
    (∀ r ∈ rows, ∀ p ∈ rowRuns r, p.2 ≤ 127) →
    encodeRowsRle W prev rows = encodeRowsErle W prev rows := by
  intro rows
  induction rows with
  | nil => intro _ _; rfl
  | cons r rs ih =>
    intro prev h
    rw [encodeRowsRle, encodeRowsErle, encodeRowRle_eq_erle W prev r (h r (by simp)),
      ih (some r) (fun q hq => h q (List.mem_cons_of_mem _ hq))]

/-- C6 (amended): the RLE round-trip through `decode_erle` holds for every
3×H×W uint8 pattern with `1 ≤ H`, `1 ≤ W ≤ 32767` whose maximal horizontal
runs are all at most 127 pixels long (longer runs get a plain count byte
≥ 128 that the decoder misreads as a two-byte length), provided no two
consecutive rows are equal whenever `W < 128` (see C10). -/
theorem C6_rle_roundtrip (pattern : List Row) (W : Nat)
    (hH : 0 < pattern.length) (hW : 0 < W) (hW2 : W ≤ 32767)
    (hshape : ∀ r ∈ pattern, r.length = W)
    (hdup : W < 128 → List.Chain' (· ≠ ·) pattern)
    (hsmall : ∀ r ∈ pattern, ∀ p ∈ rowRuns r, p.2 ≤ 127) :
    ∃ bs, encode_rle W pattern = Except.ok bs ∧
      decode_erle (pattern.length, W) bs = some pattern := by
  obtain ⟨x, xs, rfl⟩ : ∃ x xs, pattern = x :: xs := by
    cases pattern with
    | nil => simp at hH
    | cons x xs => exact ⟨x, xs, rfl⟩
  obtain ⟨body, hbody⟩ := encodeRowsErle_isOk W hW hW2 (x :: xs) none hshape
    (by simpa using hdup)
  have hrle : encodeRowsRle W none (x :: xs) = Except.ok body := by
    rw [encodeRowsRle_eq_erle W (x :: xs) none hsmall, hbody]
  refine ⟨body ++ [0], by rw [encode_rle, hrle]; rfl, ?_⟩
  rw [encodeRowsErle] at hbody
  have hxW : x.length = W := hshape x (by simp)
  have hxne : x ≠ [] := by
    intro h
    rw [h] at hxW
    simp at hxW
    omega
  have hb0 : ∀ p ∈ rowRuns x, 1 ≤ p.2 ∧ p.2 ≤ 32767 := by
    intro p hp
    have h1 := sumLens_mem_le _ p hp
    rw [rowRuns_sumLens, hxW] at h1
    exact ⟨rowRuns_pos x p hp, by omega⟩
  rw [encodeRowErle_none W x hxne (fun p hp => (hb0 p hp).2)] at hbody
  cases ht : encodeRowsErle W (some x) xs with
  | error e => rw [ht] at hbody; exact absurd hbody (by simp [Bind.bind, Except.bind])
  | ok tl =>
    rw [ht] at hbody
    obtain rfl : body = erleRunsBytes (rowRuns x) ++ tl := by
      simp [Bind.bind, Except.bind] at hbody
      exact hbody.symm
    obtain ⟨k, hk, S⟩ := decode_rows_erle W hW hW2 xs x [] tl ht
      (fun q hq => hshape q (List.mem_cons_of_mem _ hq)) hxW
    have S0 : ∀ f rest, decodeLoop W (f + (rowRuns x).length)
        (erleRunsBytes (rowRuns x) ++ rest) 0 0 (blankLine W) [] =
        decodeLoop W f rest 0 W x [] := by
      intro f rest
      rw [decode_runs W (rowRuns x) f rest 0 0 (blankLine W) [] hb0
        (by rw [rowRuns_sumLens, hxW]; omega) (blankLine_length W)]
      rw [show (0 : Nat) + sumLens (rowRuns x) = W by rw [rowRuns_sumLens]; omega]
      rw [rowRuns_flatten, writeSeg_full _ _ (by rw [blankLine_length, hxW])]
    rw [decode_erle]
    have hk0 : (rowRuns x).length ≤ (erleRunsBytes (rowRuns x)).length :=
      erleRunsBytes_length_ge _
    obtain ⟨F, hF⟩ : ∃ F, ((erleRunsBytes (rowRuns x) ++ tl) ++ [0]).length + 1 =
        ((F + 1) + k) + (rowRuns x).length := by
      refine ⟨((erleRunsBytes (rowRuns x)).length - (rowRuns x).length) +
        (tl.length - k) + 1, ?_⟩
      simp only [List.length_append, List.length_cons, List.length_nil]
      omega
    rw [hF]
    rw [show (erleRunsBytes (rowRuns x) ++ tl) ++ [0] =
      erleRunsBytes (rowRuns x) ++ (tl ++ [0]) by simp]
    rw [S0 ((F + 1) + k) (tl ++ [0])]
    have hS := S (F + 1) [0]
    simp only [List.length_nil, Nat.zero_add, List.nil_append] at hS
    rw [hS]
    rw [show xs.length = ((x :: xs).dropLast).length by simp]
    rw [decodeLoop_term_rle W F (xs.getLastD x) ((x :: xs).dropLast) hW]
    rw [cons_dropLast_getLastD]

/-- Witness for C6 at a 3×2×2 pattern with distinct rows and short runs. -/
theorem C6_rle_roundtrip_witness :
    ∃ bs, encode_rle 2 [[((0 : Nat), (0 : Nat), (0 : Nat)), (1, 1, 1)], [(2, 2, 2), (2, 2, 2)]] =
        Except.ok bs ∧
      decode_erle (([[((0 : Nat), (0 : Nat), (0 : Nat)), (1, 1, 1)],
          [(2, 2, 2), (2, 2, 2)]] : List Row).length, 2) bs =
        some [[(0, 0, 0), (1, 1, 1)], [(2, 2, 2), (2, 2, 2)]] :=
  C6_rle_roundtrip [[(0, 0, 0), (1, 1, 1)], [(2, 2, 2), (2, 2, 2)]] 2 (by decide)
    (by decide) (by decide) (by decide)
    (fun _ => by simp [List.chain'_cons]; decide) (by decide)

/-- C6 counterexample: an all-zero 3×1×128 pattern RLE-encodes to
`[128, 0, 0, 0, 0]`, whose count byte 128 the decoder misparses as a
two-byte length of 0, so decoding returns an empty image instead of the
pattern. -/
theorem C6_counterexample :
    ¬ ∃ bs, encode_rle 128 [List.replicate 128 ((0 : Nat), (0 : Nat), (0 : Nat))] =
        Except.ok bs ∧
      decode_erle (1, 128) bs = some [List.replicate 128 ((0 : Nat), (0 : Nat), (0 : Nat))] := by
  intro ⟨bs, h1, h2⟩
  rw [show encode_rle 128 [List.replicate 128 ((0 : Nat), (0 : Nat), (0 : Nat))] =
    Except.ok [128, 0, 0, 0, 0] from rfl] at h1
  injection h1 with hbs
  rw [← hbs] at h2
  rw [show decode_erle (1, 128) [128, 0, 0, 0, 0] = some [] from rfl] at h2
  injection h2 with h3
  exact List.noConfusion h3

theorem bmpDataChunks_ok (data : List Nat) (primary : Bool) :
    bmpDataChunks data primary = Except.ok (bmpDataCmdList data primary) := by
  rw [bmpDataChunks, bmpDataCmdList]
  apply mapM_ok
  intro k _
  have hlen : ((data.drop (504 * k)).take 504).length ≤ 504 := by simp
  simp [pack_H, Bind.bind, Except.bind,
    (show ((data.drop (504 * k)).take 504).length < 65536 by omega)]

theorem pattern_display_lut_configuration_ok (np nr : Nat)
    (h1 : np ≤ 511) (h2 : nr < 4294967296) :
    pattern_display_lut_configuration np nr = Except.ok (lutCfgCmd np nr) := by
  rw [pattern_display_lut_configuration]
  simp [pack_H, pack_I, lutCfgCmd, Bind.bind, Except.bind,
    (show ¬ np > 511 by omega), (show np < 65536 by omega), h2]

theorem pattern_display_lut_definition_ok (seqpos et dt : Nat) (trig clear : Bool)
    (pic bit : Nat) (h1 : seqpos < 65536) (h2 : et < 4294967296) (h3 : dt < 65536) :
    pattern_display_lut_definition seqpos et dt trig clear 1 true pic bit =
      Except.ok (lutDefCmd seqpos et dt trig clear pic bit) := by
  cases trig <;> cases clear <;>
    simp [pattern_display_lut_definition, pack_H, pack_I, lutDefCmd, h1, h2, h3,
      Bind.bind, Except.bind]

theorem pattern_bmp_load_ok (w h : Nat) (cp : List Nat) (idx : Nat) (primary : Bool)
    (hw : w < 65536) (hh : h < 65536) (hcp : cp.length + 48 < 4294967296)
    (hidx : idx < 65536) :
    pattern_bmp_load false w h cp "erle" idx primary =
      Except.ok (bmpLoadCmds w h cp 2 idx primary) := by
  rw [pattern_bmp_load, init_pattern_bmp_load]
  simp [compression_modes, bmpDataChunks_ok, pack_H, pack_I, bmpLoadCmds, bmpInitCmd,
    bmpHeaderBytes, Bind.bind, Except.bind, hw, hh, hidx,
    (show cp.length < 4294967296 by omega), hcp]

theorem start_stop_sequence_stop : start_stop_sequence "stop" = Except.ok stopCmd := rfl

theorem start_stop_sequence_start : start_stop_sequence "start" = Except.ok startCmd := rfl

theorem set_pattern_mode_otf : set_pattern_mode "on-the-fly" = Except.ok otfModeCmd := rfl

/-- C3: the command trace of an `upload_pattern_sequence` call on a
single-controller DMD with error-free replies and in-range arguments is
exactly: stop; set-mode(on-the-fly); stop; one LUT definition per sequence
position 0..N−1 in order; one LUT configuration; for each combined frame, in
strictly decreasing frame order (highest index first), one BMP-load init
followed by its BMP-load data chunks; one LUT configuration; start; and one
further stop when `triggered` is set. -/
theorem C3_upload_trace (dmd_width dmd_height : Nat) (patterns : List Mat)
    (patH patW : Nat) (exp_times dark_times : TimesArg)
    (triggered clear : Bool) (num_repeats : Nat)
    (exp dark : List Nat) (combined : List (List Row)) (cps : List (List Nat))
    (hexp : broadcast_times patterns.length
      (if exp_times = TimesArg.noneT then TimesArg.intT 105 else exp_times) =
        Except.ok exp)
    (hdark : broadcast_times patterns.length dark_times = Except.ok dark)
    (hNe : patterns.length ≤ exp.length) (hNd : patterns.length ≤ dark.length)
    (hexp32 : ∀ e ∈ exp, e < 4294967296) (hdark16 : ∀ d ∈ dark, d < 65536)
    (hN : patterns.length ≤ 511) (hnr : num_repeats < 4294967296)
    (hw : dmd_width < 65536) (hh : dmd_height < 65536)
    (hcomb : combine_patterns patH patW patterns 1 = Except.ok combined)
    (hcps : ∀ ii < combined.length,
      encode_erle patW (combined.getD ii []) = Except.ok (cps.getD ii []))
    (hcpsz : ∀ ii < combined.length, (cps.getD ii []).length + 48 < 4294967296) :
    upload_pattern_sequence false dmd_width dmd_height patterns patH patW
        exp_times dark_times triggered clear 1 num_repeats "erle" =
      Except.ok
        ([stopCmd, otfModeCmd, stopCmd] ++
          ((List.range patterns.length).map fun ii =>
            lutDefCmd ii (exp.getD ii 0) (dark.getD ii 0) triggered clear
              (index_2pic_bit ii).1 (index_2pic_bit ii).2) ++
          [lutCfgCmd patterns.length num_repeats] ++
          (((List.range combined.length).reverse).map fun ii =>
            bmpLoadCmds dmd_width dmd_height (cps.getD ii []) 2 ii true).flatten ++
          [lutCfgCmd patterns.length num_repeats, startCmd] ++
          (if triggered then [stopCmd] else [])) := by
  have hclen : combined.length ≤ 22 := by
    rw [combine_patterns] at hcomb
    rw [if_neg (by simp)] at hcomb
    split at hcomb
    · exact absurd hcomb (by simp)
    · injection hcomb with h
      rw [← h]
      simp
      omega
  have hexpD : ∀ ii < patterns.length, exp.getD ii 0 < 4294967296 := by
    intro ii hii
    have hlt : ii < exp.length := by omega
    rw [List.getD_eq_getElem exp 0 hlt]
    exact hexp32 _ (List.getElem_mem hlt)
  have hdarkD : ∀ ii < patterns.length, dark.getD ii 0 < 65536 := by
    intro ii hii
    have hlt : ii < dark.length := by omega
    rw [List.getD_eq_getElem dark 0 hlt]
    exact hdark16 _ (List.getElem_mem hlt)
  have hmin : min patterns.length (min exp.length dark.length) = patterns.length := by
    omega
  have hlut : (List.range (min patterns.length (min exp.length dark.length))).mapM
      (fun ii => pattern_display_lut_definition ii (exp.getD ii 0) (dark.getD ii 0)
        triggered clear 1 true (index_2pic_bit ii).1 (index_2pic_bit ii).2) =
      Except.ok ((List.range patterns.length).map fun ii =>
        lutDefCmd ii (exp.getD ii 0) (dark.getD ii 0) triggered clear
          (index_2pic_bit ii).1 (index_2pic_bit ii).2) := by
    rw [hmin]
    apply mapM_ok
    intro ii hii
    rw [List.mem_range] at hii
    exact pattern_display_lut_definition_ok ii _ _ triggered clear _ _
      (by omega) (hexpD ii hii) (hdarkD ii hii)
  have hbmps : ((List.range combined.length).reverse).mapM
      (fun ii => do
        let dmd_pattern := combined.getD ii []
        if false then do
          let p0 := dmd_pattern.map fun row => row.take ((patW + 1) / 2)
          let p1 := dmd_pattern.map fun row => row.drop ((patW + 1) / 2)
          let cp0 ← encode_erle ((patW + 1) / 2) p0
          let cp1 ← encode_erle (patW - (patW + 1) / 2) p1
          let c0 ← pattern_bmp_load false dmd_width dmd_height cp0 "erle" ii true
          let c1 ← pattern_bmp_load false dmd_width dmd_height cp1 "erle" ii false
          Except.ok (c0 ++ c1)
        else do
          let cp ← encode_erle patW dmd_pattern
          pattern_bmp_load false dmd_width dmd_height cp "erle" ii true) =
      Except.ok ((List.range combined.length).reverse.map fun ii =>
        bmpLoadCmds dmd_width dmd_height (cps.getD ii []) 2 ii true) := by
    apply mapM_ok
    intro ii hii
    rw [List.mem_reverse, List.mem_range] at hii
    simp only [Bool.false_eq_true, if_false]
    rw [hcps ii hii]
    simp only [Bind.bind, Except.bind]
    exact pattern_bmp_load_ok dmd_width dmd_height _ ii true hw hh
      (hcpsz ii hii) (by omega)
  simp only [Bind.bind, Except.bind] at hbmps
  rw [upload_pattern_sequence, hexp]
  simp only [Bind.bind, Except.bind]
  rw [hdark]
  simp only [Bind.bind, Except.bind]
  rw [if_neg (by simp [compression_modes]), if_neg (by simp)]
  rw [start_stop_sequence_stop]
  simp only [Bind.bind, Except.bind]
  rw [set_pattern_mode_otf]
  simp only [Bind.bind, Except.bind]
  rw [hlut]
  simp only [Bind.bind, Except.bind]
  rw [pattern_display_lut_configuration_ok patterns.length num_repeats hN hnr]
  simp only [Bind.bind, Except.bind]
  simp only [if_true, ite_true]
  simp only [hcomb]
  simp only [hbmps]
  simp only [start_stop_sequence_start]
  cases triggered <;> simp [Bind.bind, Except.bind, start_stop_sequence_stop]

/-- Witness for C3: two 1×1 patterns, triggered, on a single controller. -/
theorem C3_upload_trace_witness :
    upload_pattern_sequence false 1920 1080 [[[1]], [[0]]] 1 1 TimesArg.noneT
        (TimesArg.intT 0) true false 1 0 "erle" =
      Except.ok
        ([stopCmd, otfModeCmd, stopCmd] ++
          ((List.range ([[[1]], [[0]]] : List Mat).length).map fun ii =>
            lutDefCmd ii ([105, 105].getD ii 0) ([0, 0].getD ii 0) true false
              (index_2pic_bit ii).1 (index_2pic_bit ii).2) ++
          [lutCfgCmd ([[[1]], [[0]]] : List Mat).length 0] ++
          (((List.range ([[[((0 : Nat), (0 : Nat), (1 : Nat))]]] : List (List Row)).length).reverse).map
            fun ii => bmpLoadCmds 1920 1080 ([[1, 0, 0, 1, 0, 1, 0]].getD ii []) 2 ii true).flatten ++
          [lutCfgCmd ([[[1]], [[0]]] : List Mat).length 0, startCmd] ++
          (if true then [stopCmd] else [])) :=
  C3_upload_trace 1920 1080 [[[1]], [[0]]] 1 1 TimesArg.noneT (TimesArg.intT 0) true false 0
    [105, 105] [0, 0] [[[(0, 0, 1)]]] [[1, 0, 0, 1, 0, 1, 0]]
    rfl rfl (by decide) (by decide) (by decide) (by decide) (by decide) (by decide)
    (by decide) (by decide) rfl
    (by
      intro ii hii
      have h0 : ii = 0 := by
        simp at hii
        exact hii
      subst h0
      rfl)
    (by decide)
